import Mathlib

set_option autoImplicit false

/-!
Verification of the kadi commanded-states interpreter (`kadi/cmds/states.py`)
and the maneuver event detector (`events/models.py`).

Modelling conventions (shallow embedding):

* Dates.  The source orders transitions by 21-character date strings whose
  lexicographic order agrees with time order (spec §3).  We model a date by a
  `Nat` (seconds); the future sentinel `'2099:365:00:00:00.000'` becomes the
  constant `FUTURE_SENTINEL`.
* Python `dict`s keyed by strings become insertion-ordered association lists
  (`alGet` / `alSet` reproduce `d[k]` / `d[k] = v` including the
  order-preserving update of an existing key).  A missing key raises
  `KeyError` in Python; fallible accesses are modelled with `Option`/`Except`.
* Scalar values (`None`, strings, ints, floats) become the inductive `Val`;
  floating point quantities (quaternion components, pitches, telemetry
  times) are only stored, added, halved, subtracted and compared by the
  code, so they are modelled by the exact fraction type `Flo`.
* External astronomy/telemetry libraries (`Chandra.Maneuver.attitudes`,
  `NSM_attitude`, `Ska.Sun.pitch`, `decode_power`) are pure stateless
  functions per spec §6; they are passed as an explicit `Ext` record.
* The interpreter loop of `get_states_for_cmds` iterates over a list that
  function actions may extend (insertions occur strictly after the cursor);
  the Lean model uses an explicit fuel parameter for termination, and the
  theorems quantify over any fuel for which the run completes.
-/

namespace Kadi

/-- An exact, non-normalizing fraction `num / den` (`den` positive in every
construction).  This models the Python floats that flow through the code:
they are only stored, added, halved, subtracted and compared, and every such
operation is exact here. -/
structure Flo where
  num : Int
  den : Nat
deriving DecidableEq, Repr, Inhabited

/-- Exact addition of fractions (no normalization). -/
def Flo.add (a b : Flo) : Flo :=
  ⟨a.num * b.den + b.num * a.den, a.den * b.den⟩

/-- Exact halving (division by 2). -/
def Flo.half (a : Flo) : Flo := ⟨a.num, 2 * a.den⟩

/-- Exact subtraction of fractions. -/
def Flo.sub (a b : Flo) : Flo :=
  ⟨a.num * b.den - b.num * a.den, a.den * b.den⟩

/-- Exact strict comparison by cross-multiplication (dens positive). -/
def Flo.ltb (a b : Flo) : Bool :=
  a.num * (b.den : Int) < b.num * (a.den : Int)

/-- A fraction with denominator 1. -/
def Flo.ofInt (n : Int) : Flo := ⟨n, 1⟩

/-- Scalar state values: Python `None`, strings, integers and floats
(floats modelled as exact fractions). -/
inductive Val where
  | none
  | str (s : String)
  | int (n : Int)
  | float (x : Flo)
deriving DecidableEq, Repr, Inhabited

/-- Association-list lookup, modelling Python `d[k]` (first binding wins;
`Option.none` models a `KeyError`). -/
def alGet {α : Type} : List (String × α) → String → Option α
  | [], _ => Option.none
  | (k', v) :: d, k => if k' = k then Option.some v else alGet d k

/-- Association-list lookup with a default value. -/
def alGetD {α : Type} (d : List (String × α)) (k : String) (v₀ : α) : α :=
  (alGet d k).getD v₀

/-- Association-list update, modelling Python `d[k] = v`: an existing key is
overwritten in place (keeping its position), a new key is appended at the end. -/
def alSet {α : Type} : List (String × α) → String → α → List (String × α)
  | [], k, v => [(k, v)]
  | (k', v') :: d, k, v =>
      if k' = k then (k, v) :: d else (k', v') :: alSet d k v

/-- A live state, mapping state keys to current values (`states.py` uses a
plain `dict`). -/
def StateD : Type := List (String × Val)

instance : DecidableEq StateD := by
  unfold StateD; infer_instance

instance : Inhabited StateD := ⟨([] : List (String × Val))⟩

/-- A command row (`kadi.cmds` table): `date`, `type`, `tlmsid`, the
parameter bag (source: `REV_PARS_DICT[cmd['idx']]`, attached directly here)
and the quaternion columns read by `TargQuatTransition`. -/
structure Cmd where
  date : Nat
  ctype : String
  tlmsid : String
  params : List (String × Val)
  q1 : Val := Val.none
  q2 : Val := Val.none
  q3 : Val := Val.none
  q4 : Val := Val.none
deriving DecidableEq, Repr, Inhabited

/-- The function actions that can be stored in a transition
(`{'func': ..., 'cmd': ...}` dicts in the source): the periodic pitch
re-sampler, `ManeuverTransition.add_transitions` (with its bound command) and
`NormalSunTransition.add_transitions`. -/
inductive FuncAction where
  | updatePitch
  | maneuver (cmd : Cmd)
  | normalSun (cmd : Cmd)
deriving DecidableEq, Repr

/-- A value stored under a key of a transition dict: either a scalar
assignment or a function action. -/
inductive TransValue where
  | scalar (v : Val)
  | func (f : FuncAction)
deriving DecidableEq, Repr

/-- One transition: the `date` entry of the Python dict is the structure
field, the remaining key/value pairs (in dict insertion order) are `items`. -/
structure Transition where
  date : Nat
  items : List (String × TransValue)
deriving DecidableEq, Repr, Inhabited

/-- Quaternion component names (source: `QCS`). -/
def QCS : List String := ["q1", "q2", "q3", "q4"]

/-- State keys required to handle maneuvers (source: `MANVR_STATE_KEYS`). -/
def MANVR_STATE_KEYS : List String :=
  QCS ++ QCS.map (fun qc => "targ_" ++ qc) ++ ["auto_npnt", "pcad_mode", "pitch"]

/-- The scan-and-insert loop of `add_transition` over the sublist
`transitions[idx+1:]`: insert before the first element whose date is strictly
greater, else append (the `for ... else` in the source). -/
def insertLoop (t : Transition) : List Transition → List Transition
  | [] => [t]
  | x :: xs => if t.date < x.date then t :: x :: xs else x :: insertLoop t xs

/-- Source `add_transition(transitions, idx, transition)`: raise
`ValueError` when the new date precedes the cursor's date, otherwise insert
at the first position after the cursor with a strictly later date, else
append.  An out-of-range cursor is the Python `IndexError`. -/
def add_transition (transitions : List Transition) (idx : Nat)
    (transition : Transition) : Except String (List Transition) :=
  match transitions[idx]? with
  | Option.none => Except.error "IndexError"
  | Option.some cur =>
      if transition.date < cur.date then
        Except.error "cannot insert transition prior to current command"
      else
        Except.ok (transitions.take (idx + 1) ++
          insertLoop transition (transitions.drop (idx + 1)))

/-- Characterization of `insertLoop`: the result is the input with `t`
inserted at the first position whose element has a strictly later date
(appending when there is none). -/
theorem insertLoop_eq (t : Transition) (xs : List Transition) :
    ∃ p, p ≤ xs.length ∧
      insertLoop t xs = xs.take p ++ t :: xs.drop p ∧
      (∀ k x, k < p → xs[k]? = Option.some x → ¬ t.date < x.date) ∧
      (p = xs.length ∨ ∃ x, xs[p]? = Option.some x ∧ t.date < x.date) := by
  induction xs with
  | nil =>
      exact ⟨0, Nat.le_refl _, rfl, by intro k x hk; omega, Or.inl rfl⟩
  | cons y ys ih =>
      by_cases h : t.date < y.date
      · refine ⟨0, Nat.zero_le _, ?_, ?_, ?_⟩
        · simp [insertLoop, h]
        · intro k x hk; omega
        · exact Or.inr ⟨y, by simp, h⟩
      · obtain ⟨p, hp, heq, hbefore, hat⟩ := ih
        refine ⟨p + 1, by simpa using Nat.succ_le_succ hp, ?_, ?_, ?_⟩
        · simp [insertLoop, h, heq]
        · intro k x hk hget
          match k with
          | 0 => simp at hget; subst hget; exact h
          | Nat.succ k' =>
              exact hbefore k' x (by omega) (by simpa using hget)
        · rcases hat with h1 | ⟨x, hx, hxd⟩
          · exact Or.inl (by simp [h1])
          · exact Or.inr ⟨x, by simpa using hx, hxd⟩

/-- C1: given a valid cursor `i`, `add_transition` fails (the source's
`ValueError`, the spec's `OrderingViolation`) if and only if the new
transition's date precedes `transitions[i].date`; otherwise it inserts the
new transition at the first position `j > i` whose existing transition has a
strictly later date (so an equal-date insertion lands after all existing
transitions of that date in the scanned range), appending at the end when no
such position exists. -/
theorem C1_add_transition_contract (ts : List Transition) (i : Nat)
    (t ci : Transition) (hci : ts[i]? = Option.some ci) :
    ((∃ e, add_transition ts i t = Except.error e) ↔ t.date < ci.date) ∧
    (∀ out, add_transition ts i t = Except.ok out →
      ∃ j, i < j ∧ j ≤ ts.length ∧
        out = ts.take j ++ t :: ts.drop j ∧
        (∀ k x, i < k → k < j → ts[k]? = Option.some x → ¬ t.date < x.date) ∧
        (j = ts.length ∨ ∃ x, ts[j]? = Option.some x ∧ t.date < x.date)) := by
  have hi : i < ts.length := by
    by_contra hlen
    rw [List.getElem?_eq_none (by omega)] at hci
    exact Option.noConfusion hci
  have hstep : add_transition ts i t =
      if t.date < ci.date then
        Except.error "cannot insert transition prior to current command"
      else
        Except.ok (ts.take (i + 1) ++ insertLoop t (ts.drop (i + 1))) := by
    unfold add_transition
    rw [hci]
  constructor
  · constructor
    · rintro ⟨e, he⟩
      rw [hstep] at he
      by_cases hd : t.date < ci.date
      · exact hd
      · rw [if_neg hd] at he; exact Except.noConfusion he
    · intro hd
      refine ⟨"cannot insert transition prior to current command", ?_⟩
      rw [hstep, if_pos hd]
  · intro out hout
    rw [hstep] at hout
    by_cases hd : t.date < ci.date
    · rw [if_pos hd] at hout; exact Except.noConfusion hout
    · rw [if_neg hd] at hout
      obtain ⟨p, hp, heq, hbefore, hat⟩ := insertLoop_eq t (ts.drop (i + 1))
      rw [List.length_drop] at hp
      have hout' : out = ts.take (i + 1) ++ insertLoop t (ts.drop (i + 1)) := by
        injection hout with h
        exact h.symm
      refine ⟨i + 1 + p, by omega, by omega, ?_, ?_, ?_⟩
      · have hdd : (ts.drop (i + 1)).drop p = ts.drop (i + 1 + p) := by
          rw [List.drop_drop]
          try congr 1
          try omega
        have hta : ts.take (i + 1 + p) = ts.take (i + 1) ++ (ts.drop (i + 1)).take p :=
          List.take_add ts (i + 1) p
        rw [hout', heq, hdd, hta, List.append_assoc]
      · intro k x hk1 hk2 hget
        have hk : k - (i + 1) < p := by omega
        have : (ts.drop (i + 1))[k - (i + 1)]? = Option.some x := by
          rw [List.getElem?_drop]
          have : i + 1 + (k - (i + 1)) = k := by omega
          rw [this]; exact hget
        exact hbefore _ x hk this
      · rcases hat with h1 | ⟨x, hx, hxd⟩
        · left; rw [List.length_drop] at h1; omega
        · right
          refine ⟨x, ?_, hxd⟩
          rw [List.getElem?_drop] at hx
          exact hx

/-- Concrete transitions list for the `add_transition` witness. -/
def exTs : List Transition := [⟨10, []⟩, ⟨20, []⟩, ⟨20, []⟩, ⟨30, []⟩]

/-- Concrete equal-date transition for the `add_transition` witness. -/
def exT : Transition := ⟨20, []⟩

/-- Witness for C1 at a concrete list with an equal-date insertion. -/
theorem C1_add_transition_contract_witness :
    exTs[0]? = Option.some (⟨10, []⟩ : Transition) ∧
    (((∃ e, add_transition exTs 0 exT = Except.error e) ↔
        exT.date < (⟨10, []⟩ : Transition).date) ∧
    (∀ out, add_transition exTs 0 exT = Except.ok out →
      ∃ j, 0 < j ∧ j ≤ exTs.length ∧
        out = exTs.take j ++ exT :: exTs.drop j ∧
        (∀ k x, 0 < k → k < j → exTs[k]? = Option.some x → ¬ exT.date < x.date) ∧
        (j = exTs.length ∨ ∃ x, exTs[j]? = Option.some x ∧ exT.date < x.date))) :=
  ⟨by decide, C1_add_transition_contract exTs 0 exT ⟨10, []⟩ (by decide)⟩

/-- Numeric stand-in for the future sentinel date string
`'2099:365:00:00:00.000'` that closes the final state interval. -/
def FUTURE_SENTINEL : Nat := 4102444800

/-- One row of a states table: `datestart`, `datestop` and the state-key
columns (astropy table row modelled as an ordered association list). -/
structure StateRow where
  datestart : Nat
  datestop : Nat
  vals : List (String × Val)
deriving DecidableEq, Repr, Inhabited

/-- Value of a row in column `k` (astropy `states[key]` at this row).  State
keys are distinct from the structural `datestart`/`datestop` columns. -/
def rowVal (r : StateRow) (k : String) : Val :=
  alGetD r.vals k Val.none

/-- Does `cur` differ from the preceding row `prev` in any of `keys`?  This
is the per-row content of `different[1:] |= (col[:-1] != col[1:])`. -/
def rowDiff (keys : List String) (prev cur : StateRow) : Bool :=
  keys.any (fun k => decide (rowVal cur k ≠ rowVal prev k))

/-- The boolean `different` array of `reduce_states`:
`np.zeros(len(states))` leaves entry 0 `False`; entry `i ≥ 1` is the
accumulated inequality of rows `i-1` and `i` over all keys. -/
def diffFlags (keys : List String) : List StateRow → List Bool
  | [] => []
  | r0 :: rest =>
      false :: (List.zip (r0 :: rest) rest).map (fun pc => rowDiff keys pc.1 pc.2)

/-- Boolean-mask row selection, astropy `table[different]`. -/
def selectFlags {α : Type} : List Bool → List α → List α
  | b :: bs, x :: xs => (if b then [x] else []) ++ selectFlags bs xs
  | _, _ => []

/-- Column selection `states[['datestart', 'datestop'] + state_keys]` applied
to one row. -/
def restrictRow (keys : List String) (r : StateRow) : StateRow :=
  { r with vals := keys.map (fun k => (k, rowVal r k)) }

/-- In-place datestop fixup `out['datestop'][:-1] = out['datestart'][1:]`
(the last row keeps its datestop). -/
def fixStops : List StateRow → List StateRow
  | [] => []
  | [r] => [r]
  | r :: r2 :: rest => { r with datestop := r2.datestart } :: fixStops (r2 :: rest)

/-- Source `reduce_states(states, state_keys)`: keep the rows flagged by
`different`, restricted to `datestart`/`datestop` plus the given keys, then
re-chain the datestops. -/
def reduce_states (states : List StateRow) (state_keys : List String) :
    List StateRow :=
  fixStops (selectFlags (diffFlags state_keys states)
    (states.map (restrictRow state_keys)))

/-- Rows of `rest` (predecessor `prev`) that differ from their immediate
predecessor in some requested key, restricted to the requested columns. -/
def keepChanged (keys : List String) : StateRow → List StateRow → List StateRow
  | _, [] => []
  | prev, r :: rs =>
      (if rowDiff keys prev r then [restrictRow keys r] else []) ++
        keepChanged keys r rs

/-- Modelled from the claim's words (C3): keep every row that differs from
its predecessor in some requested key, *and always keep row 0*. -/
def reduce_states_claimC3 (states : List StateRow) (keys : List String) :
    List StateRow :=
  match states with
  | [] => []
  | r0 :: rest => fixStops (restrictRow keys r0 :: keepChanged keys r0 rest)

/-- The amended behaviour of `reduce_states`: keep exactly the rows `r ≥ 1`
that differ from row `r-1` in some requested key; row 0 is always dropped. -/
def reduce_states_kept (states : List StateRow) (keys : List String) :
    List StateRow :=
  match states with
  | [] => []
  | r0 :: rest => fixStops (keepChanged keys r0 rest)

/-- The mask-based row selection of `reduce_states` computes exactly the
`keepChanged` recursion. -/
theorem selectFlags_zip_eq_keepChanged (keys : List String) :
    ∀ (rest : List StateRow) (prev : StateRow),
      selectFlags ((List.zip (prev :: rest) rest).map
          (fun pc => rowDiff keys pc.1 pc.2))
        (rest.map (restrictRow keys)) = keepChanged keys prev rest := by
  intro rest
  induction rest with
  | nil => intro prev; rfl
  | cons r rs ih =>
      intro prev
      simp only [List.zip] at ih ⊢
      simp only [List.zipWith_cons_cons, List.map_cons, selectFlags, keepChanged]
      rw [ih r]

/-- The source `reduce_states` agrees with the amended description `reduce_states_kept`
on every table and key set. -/
theorem reduce_states_eq_kept (states : List StateRow) (keys : List String) :
    reduce_states states keys = reduce_states_kept states keys := by
  cases states with
  | nil => rfl
  | cons r0 rest =>
      unfold reduce_states reduce_states_kept diffFlags
      simp only [List.map_cons, selectFlags]
      rw [if_neg (by simp), List.nil_append,
        selectFlags_zip_eq_keepChanged keys rest r0]

/-- Concrete first row for the reducer counterexamples. -/
def rA : StateRow := ⟨0, 5, [("k", Val.int 1)]⟩

/-- Concrete second row (differs from `rA` in key `k`). -/
def rB : StateRow := ⟨5, FUTURE_SENTINEL, [("k", Val.int 2)]⟩

/-- Concrete two-row table for the reducer counterexamples. -/
def exStates : List StateRow := [rA, rB]

/-- C3 counterexample: on a two-row table whose rows differ in the only
requested key, the claimed behaviour keeps both rows (row 0 always kept) but
`reduce_states` drops row 0 and returns only row 1. -/
theorem C3_row0_counterexample :
    reduce_states exStates ["k"] ≠ reduce_states_claimC3 exStates ["k"] ∧
    reduce_states exStates ["k"] = [rB] := by
  constructor
  · decide
  · decide

/-- C3 (amended): `reduce_states` keeps exactly the rows `r ≥ 1` with
`r[k] != r-1[k]` for some requested key `k`; row 0 of the input table is
always dropped (never kept). -/
theorem C3_reduce_states_kept_rows (states : List StateRow)
    (keys : List String) :
    reduce_states states keys = reduce_states_kept states keys :=
  reduce_states_eq_kept states keys

/-- Looking up a key of a map-built association list returns the generating
function's value. -/
theorem alGet_map_self (K : List String) (f : String → Val) (k : String)
    (hk : k ∈ K) :
    alGet (K.map (fun k' => (k', f k'))) k = Option.some (f k) := by
  induction K with
  | nil => cases hk
  | cons k0 Ks ih =>
      simp only [List.map_cons, alGet]
      by_cases h : k0 = k
      · subst h; simp
      · rw [if_neg h]
        rcases List.mem_cons.mp hk with h1 | h1
        · exact absurd h1.symm h
        · exact ih h1

/-- Looking up a key of a map-built association list with a default also
returns the generating function's value. -/
theorem alGetD_map_self (K : List String) (f : String → Val) (k : String)
    (v₀ : Val) (hk : k ∈ K) :
    alGetD (K.map (fun k' => (k', f k'))) k v₀ = f k := by
  unfold alGetD
  rw [alGet_map_self K f k hk]
  rfl

/-- Restriction preserves row values at every requested key. -/
theorem restrict_rowVal (K : List String) (r : StateRow) (k : String)
    (hk : k ∈ K) : rowVal (restrictRow K r) k = rowVal r k := by
  show alGetD (K.map (fun k' => (k', rowVal r k'))) k Val.none = rowVal r k
  exact alGetD_map_self K (fun k' => rowVal r k') k Val.none hk

/-- Pointwise-equal predicates give equal `any` over a list. -/
theorem any_congr_mem {α : Type} (l : List α) (f g : α → Bool)
    (h : ∀ x ∈ l, f x = g x) : l.any f = l.any g := by
  induction l with
  | nil => rfl
  | cons x xs ih =>
      simp only [List.any_cons]
      rw [h x (List.mem_cons_self x xs), ih (fun y hy => h y (List.mem_cons_of_mem x hy))]

/-- The predicate `rowDiff` only reads the `vals` fields of its two rows. -/
theorem rowDiff_vals (K : List String) (a a' b b' : StateRow)
    (ha : a.vals = a'.vals) (hb : b.vals = b'.vals) :
    rowDiff K a b = rowDiff K a' b' := by
  unfold rowDiff rowVal
  rw [ha, hb]

/-- Restricting both rows to the requested keys does not change `rowDiff`. -/
theorem rowDiff_restrict (K : List String) (a b : StateRow) :
    rowDiff K (restrictRow K a) (restrictRow K b) = rowDiff K a b := by
  unfold rowDiff
  refine any_congr_mem K _ _ (fun k hk => ?_)
  rw [restrict_rowVal K a k hk, restrict_rowVal K b k hk]

/-- The predicate `rowDiff` is `false` exactly when the rows agree on every requested key. -/
theorem rowDiff_false_iff (K : List String) (prev r : StateRow) :
    rowDiff K prev r = false ↔ ∀ k ∈ K, rowVal r k = rowVal prev k := by
  unfold rowDiff
  rw [List.any_eq_false]
  constructor
  · intro h k hk
    have := h k hk
    simpa using this
  · intro h k hk
    simpa using h k hk

/-- Replacing the left row by one agreeing on all requested keys preserves
`rowDiff`. -/
theorem rowDiff_congr_left (K : List String) (a a' b : StateRow)
    (h : ∀ k ∈ K, rowVal a k = rowVal a' k) :
    rowDiff K a b = rowDiff K a' b := by
  unfold rowDiff
  refine any_congr_mem K _ _ (fun k hk => ?_)
  rw [h k hk]

/-- Restriction is idempotent. -/
theorem restrict_idem (K : List String) (r : StateRow) :
    restrictRow K (restrictRow K r) = restrictRow K r := by
  have hvals : K.map (fun k => (k, rowVal (restrictRow K r) k)) =
      K.map (fun k => (k, rowVal r k)) :=
    List.map_congr_left (fun k hk => congrArg (Prod.mk k) (restrict_rowVal K r k hk))
  show ({ restrictRow K r with
    vals := K.map (fun k => (k, rowVal (restrictRow K r) k)) } : StateRow) =
      restrictRow K r
  rw [hvals]
  rfl

/-- Every row kept by `keepChanged` is a restriction of some input row. -/
theorem keepChanged_mem (K : List String) :
    ∀ (rs : List StateRow) (prev o : StateRow), o ∈ keepChanged K prev rs →
      ∃ r, o = restrictRow K r := by
  intro rs
  induction rs with
  | nil => intro prev o ho; cases ho
  | cons r rs' ih =>
      intro prev o ho
      unfold keepChanged at ho
      rcases List.mem_append.mp ho with h1 | h1
      · by_cases hd : rowDiff K prev r
        · rw [if_pos hd] at h1
          exact ⟨r, List.mem_singleton.mp h1⟩
        · rw [if_neg hd] at h1; cases h1
      · exact ih r o h1

/-- A row whose `vals` equal those of a restricted row is fixed by
restriction. -/
theorem restrict_eq_self_of_vals (K : List String) (r o : StateRow)
    (h : o.vals = (restrictRow K r).vals) : restrictRow K o = o := by
  have hvals : K.map (fun k => (k, rowVal o k)) = o.vals := by
    have h1 : ∀ k ∈ K, rowVal o k = rowVal r k := by
      intro k hk
      have : rowVal o k = rowVal (restrictRow K r) k := by
        unfold rowVal; rw [h]
      rw [this, restrict_rowVal K r k hk]
    calc K.map (fun k => (k, rowVal o k))
        = K.map (fun k => (k, rowVal r k)) :=
          List.map_congr_left (fun k hk => by rw [h1 k hk])
      _ = (restrictRow K r).vals := rfl
      _ = o.vals := h.symm
  unfold restrictRow
  cases o with
  | mk ds dp v => simp only at hvals ⊢; rw [hvals]

/-- Chain invariant of `keepChanged`: prefixing the restricted predecessor,
consecutive kept rows always differ in some requested key. -/
theorem keepChanged_chain (K : List String) :
    ∀ (rs : List StateRow) (prev : StateRow),
      List.Chain' (fun a b => rowDiff K a b = true)
        (restrictRow K prev :: keepChanged K prev rs) := by
  intro rs
  induction rs with
  | nil => intro prev; simp [keepChanged]
  | cons r rs' ih =>
      intro prev
      by_cases hd : rowDiff K prev r
      · unfold keepChanged
        rw [if_pos hd]
        simp only [List.singleton_append]
        rw [List.chain'_cons]
        refine ⟨?_, ih r⟩
        rw [rowDiff_restrict]
        exact hd
      · unfold keepChanged
        rw [if_neg hd, List.nil_append]
        have hmain := ih r
        have heq : ∀ k ∈ K, rowVal (restrictRow K prev) k =
            rowVal (restrictRow K r) k := by
          intro k hk
          rw [restrict_rowVal K prev k hk, restrict_rowVal K r k hk]
          have := (rowDiff_false_iff K prev r).mp (by simpa using hd) k hk
          exact this.symm
        cases hkc : keepChanged K r rs' with
        | nil => simp
        | cons o os =>
            rw [hkc] at hmain
            rw [List.chain'_cons] at hmain ⊢
            refine ⟨?_, hmain.2⟩
            rw [rowDiff_congr_left K _ (restrictRow K r) o heq]
            exact hmain.1

/-- Over a chain of pairwise-different rows all fixed by restriction,
`keepChanged` keeps everything. -/
theorem keepChanged_of_chain (K : List String) :
    ∀ (l : List StateRow) (o0 : StateRow),
      List.Chain' (fun a b => rowDiff K a b = true) (o0 :: l) →
      (∀ o ∈ l, restrictRow K o = o) →
      keepChanged K o0 l = l := by
  intro l
  induction l with
  | nil => intro o0 _ _; rfl
  | cons o os ih =>
      intro o0 hchain hr
      rw [List.chain'_cons] at hchain
      unfold keepChanged
      rw [if_pos hchain.1, hr o (List.mem_cons_self o os),
        ih o hchain.2 (fun x hx => hr x (List.mem_cons_of_mem o hx))]
      rfl

/-- The tail of a datestop-fixed table is the datestop-fixed tail. -/
theorem fixStops_tail : ∀ l : List StateRow, (fixStops l).tail = fixStops l.tail
  | [] => rfl
  | [_] => rfl
  | _ :: _ :: _ => rfl

/-- The datestop fixup keeps the head's `vals` and `datestart`. -/
theorem fixStops_head_vals (r : StateRow) (l : List StateRow) :
    ∃ hd tl, fixStops (r :: l) = hd :: tl ∧ hd.vals = r.vals ∧
      hd.datestart = r.datestart := by
  cases l with
  | nil => exact ⟨r, [], rfl, rfl, rfl⟩
  | cons r2 t =>
      exact ⟨{ r with datestop := r2.datestart }, fixStops (r2 :: t), rfl, rfl, rfl⟩

/-- The datestop fixup is idempotent. -/
theorem fixStops_idem : ∀ l : List StateRow, fixStops (fixStops l) = fixStops l := by
  intro l
  induction l with
  | nil => rfl
  | cons r l ih =>
      cases l with
      | nil => rfl
      | cons r2 t =>
          obtain ⟨hd, tl, heq, _, hds⟩ := fixStops_head_vals r2 t
          rw [show fixStops (r :: r2 :: t) =
            { r with datestop := r2.datestart } :: fixStops (r2 :: t) from rfl, heq]
          rw [show fixStops ({ r with datestop := r2.datestart } :: hd :: tl) =
            { r with datestop := hd.datestart } :: fixStops (hd :: tl) from rfl]
          rw [← heq, ih, hds]

/-- Every row of a datestop-fixed table has the `vals` of some input row. -/
theorem fixStops_mem_vals : ∀ l : List StateRow, ∀ o ∈ fixStops l,
    ∃ o' ∈ l, o.vals = o'.vals := by
  intro l
  induction l with
  | nil => intro o ho; cases ho
  | cons r l ih =>
      cases l with
      | nil =>
          intro o ho
          exact ⟨r, List.mem_cons_self r [], by rw [List.mem_singleton.mp ho]⟩
      | cons r2 t =>
          intro o ho
          rcases List.mem_cons.mp ho with h | h
          · exact ⟨r, List.mem_cons_self _ _, by rw [h]⟩
          · obtain ⟨o', ho', hv⟩ := ih o h
            exact ⟨o', List.mem_cons_of_mem r ho', hv⟩

/-- The datestop fixup preserves the pairwise-difference chain (it never
touches `vals`). -/
theorem chain_fixStops (K : List String) :
    ∀ l : List StateRow,
      List.Chain' (fun a b => rowDiff K a b = true) l →
      List.Chain' (fun a b => rowDiff K a b = true) (fixStops l) := by
  intro l
  induction l with
  | nil => intro h; exact h
  | cons r l ih =>
      cases l with
      | nil => intro _; simp [fixStops]
      | cons r2 t =>
          intro h
          rw [List.chain'_cons] at h
          obtain ⟨hd, tl, heq, hvals, _⟩ := fixStops_head_vals r2 t
          show List.Chain' _ ({ r with datestop := r2.datestart } :: fixStops (r2 :: t))
          rw [heq, List.chain'_cons]
          constructor
          · rw [rowDiff_vals K { r with datestop := r2.datestart } r hd r2 rfl hvals]
            exact h.1
          · rw [← heq]
            exact ih h.2

/-- C4 counterexample: on the two-row table `exStates`, `reduce_states`
returns one (nonempty) row, but applying it again returns the empty table,
so `reduce_states` is not idempotent. -/
theorem C4_idempotence_counterexample :
    reduce_states (reduce_states exStates ["k"]) ["k"] ≠
      reduce_states exStates ["k"] ∧
    reduce_states exStates ["k"] ≠ [] := by
  constructor
  · decide
  · decide

/-- C4 (amended): applying `reduce_states` twice is the same as applying
it once and then discarding the first remaining row; in particular it is
idempotent only on inputs whose once-reduced table is empty. -/
theorem C4_reduce_reduce_eq_drop_one (states : List StateRow)
    (keys : List String) :
    reduce_states (reduce_states states keys) keys =
      (reduce_states states keys).drop 1 := by
  rw [reduce_states_eq_kept states keys]
  rw [reduce_states_eq_kept (reduce_states_kept states keys) keys]
  cases states with
  | nil => rfl
  | cons r0 rest =>
      show reduce_states_kept (fixStops (keepChanged keys r0 rest)) keys =
        (fixStops (keepChanged keys r0 rest)).drop 1
      have hchain : List.Chain' (fun a b => rowDiff keys a b = true)
          (keepChanged keys r0 rest) := (keepChanged_chain keys rest r0).tail
      cases hfs : fixStops (keepChanged keys r0 rest) with
      | nil => rfl
      | cons o0 orest =>
          have hchain_out : List.Chain' (fun a b => rowDiff keys a b = true)
              (o0 :: orest) := by
            rw [← hfs]
            exact chain_fixStops keys (keepChanged keys r0 rest) hchain
          have hrestr : ∀ o ∈ orest, restrictRow keys o = o := by
            intro o ho
            have homem : o ∈ fixStops (keepChanged keys r0 rest) := by
              rw [hfs]
              exact List.mem_cons_of_mem o0 ho
            obtain ⟨o', ho', hv⟩ :=
              fixStops_mem_vals (keepChanged keys r0 rest) o homem
            obtain ⟨r, hr⟩ := keepChanged_mem keys rest r0 o' ho'
            exact restrict_eq_self_of_vals keys r o (by rw [hv, hr])
          show fixStops (keepChanged keys o0 orest) = orest
          rw [keepChanged_of_chain keys orest o0 hchain_out hrestr]
          have htail : orest = fixStops (keepChanged keys r0 rest).tail := by
            have h1 := fixStops_tail (keepChanged keys r0 rest)
            rw [hfs] at h1
            exact (show orest = (o0 :: orest).tail from rfl).trans h1
          rw [htail, fixStops_idem]

/-- Python dict access `state[k]`: `KeyError` when the key is absent. -/
def getK (st : StateD) (k : String) : Except String Val :=
  match alGet st k with
  | Option.none => Except.error ("KeyError: " ++ k)
  | Option.some v => Except.ok v

/-- One sample of the external maneuver profile
`Chandra.Maneuver.attitudes(...)`: a time and `q1..q4, pitch` values. -/
structure AttSample where
  time : Nat
  q1 : Flo
  q2 : Flo
  q3 : Flo
  q4 : Flo
  pitch : Flo
deriving DecidableEq, Repr, Inhabited

/-- The external astronomy/ACIS libraries (spec §6: pure stateless
functions): the maneuver profile, the normal-sun target attitude, the
composite `Quat`/`Ska.Sun.pitch` computation and `decode_power` (returning
`fep_count, ccd_count, vid_board, clocking`). -/
structure Ext where
  attitudes : List Val → List Val → Nat → List AttSample
  NSM_attitude : List Val → Nat → List Flo
  sun_pitch : List Val → Nat → Flo
  decode_power : String → Int × Int × Int × Int

/-- Source `update_pitch_state(date, transitions, state, idx)`: recompute
`pitch` from the current attitude, but only when `pcad_mode == 'NPNT'`. -/
def update_pitch_state (ext : Ext) (date : Nat) (state : StateD) :
    Except String StateD := do
  let pm ← getK state "pcad_mode"
  if pm = Val.str "NPNT" then do
    let q1 ← getK state "q1"
    let q2 ← getK state "q2"
    let q3 ← getK state "q3"
    let q4 ← getK state "q4"
    Except.ok (alSet state "pitch" (Val.float (ext.sun_pitch [q1, q2, q3, q4] date)))
  else
    Except.ok state

/-- The `np.hstack([(atts[:-1].pitch + atts[1:].pitch) / 2, atts[-1].pitch])`
pitch sequence: averages of consecutive sample pitches, the last sample
keeping its own pitch. -/
def manvrPitches : AttSample → List AttSample → List Flo
  | a, [] => [a.pitch]
  | a, b :: t => (Flo.add a.pitch b.pitch).half :: manvrPitches b t

/-- The transition dict built for one attitude sample (keys in dict
insertion order: `q1..q4` then `pitch`). -/
def attTransition (a : AttSample) (pitch : Flo) : Transition :=
  ⟨a.time,
    [("q1", TransValue.scalar (Val.float a.q1)),
     ("q2", TransValue.scalar (Val.float a.q2)),
     ("q3", TransValue.scalar (Val.float a.q3)),
     ("q4", TransValue.scalar (Val.float a.q4)),
     ("pitch", TransValue.scalar (Val.float pitch))]⟩

/-- The per-sample `add_transition` loop of `add_manvr_transitions`,
threading the growing transitions list and the rebound `date` variable
(whose final value is returned as the end-of-maneuver date). -/
def insertManvrSamples (idx : Nat) :
    List (AttSample × Flo) → List Transition → Nat →
      Except String (List Transition × Nat)
  | [], ts, d => Except.ok (ts, d)
  | (a, p) :: rest, ts, _ => do
      let ts' ← add_transition ts idx (attTransition a p)
      insertManvrSamples idx rest ts' a.time

namespace ManeuverTransition

/-- Source `ManeuverTransition.add_manvr_transitions`: read the target
quaternion from the live state, seed `q1..q4` from it when `q1` is unknown,
obtain the external maneuver profile and insert one transition per sample;
returns the updated transitions list, the (possibly seeded) live state and
the end-of-maneuver date. -/
def add_manvr_transitions (ext : Ext) (date : Nat)
    (transitions : List Transition) (state : StateD) (idx : Nat) (cmd : Cmd) :
    Except String (List Transition × StateD × Nat) := do
  let t1 ← getK state "targ_q1"
  let t2 ← getK state "targ_q2"
  let t3 ← getK state "targ_q3"
  let t4 ← getK state "targ_q4"
  let q1v ← getK state "q1"
  let state :=
    if q1v = Val.none then
      alSet (alSet (alSet (alSet state "q1" t1) "q2" t2) "q3" t3) "q4" t4
    else state
  let c1 ← getK state "q1"
  let c2 ← getK state "q2"
  let c3 ← getK state "q3"
  let c4 ← getK state "q4"
  let atts := ext.attitudes [c1, c2, c3, c4] [t1, t2, t3, t4] cmd.date
  match atts with
  | [] => Except.error "IndexError"
  | a0 :: rest => do
      let (ts', endDate) ←
        insertManvrSamples idx ((a0 :: rest).zip (manvrPitches a0 rest))
          transitions date
      Except.ok (ts', state, endDate)

/-- The end-of-maneuver `{pcad_mode: 'NPNT'}` transition dict. -/
def npntTransition (d : Nat) : Transition :=
  ⟨d, [("pcad_mode", TransValue.scalar (Val.str "NPNT"))]⟩

/-- Source `ManeuverTransition.add_transitions`: run the maneuver expansion
and, when `auto_npnt == 'ENAB'` in the live state, also insert the
back-to-NPNT transition at the end-of-maneuver date. -/
def add_transitions (ext : Ext) (date : Nat) (transitions : List Transition)
    (state : StateD) (idx : Nat) (cmd : Cmd) :
    Except String (List Transition × StateD) := do
  let (ts', state', endDate) ←
    add_manvr_transitions ext date transitions state idx cmd
  let an ← getK state' "auto_npnt"
  if an = Val.str "ENAB" then do
    let ts'' ← add_transition ts' idx (npntTransition endDate)
    Except.ok (ts'', state')
  else
    Except.ok (ts', state')

end ManeuverTransition

namespace NormalSunTransition

/-- Source `NormalSunTransition.add_transitions`: set `pcad_mode='NSUN'`
directly in the live state, compute and store the sun-pointed target
attitude, then run the maneuver expansion (without the auto-NPNT coda). -/
def add_transitions (ext : Ext) (date : Nat) (transitions : List Transition)
    (state : StateD) (idx : Nat) (cmd : Cmd) :
    Except String (List Transition × StateD) := do
  let st1 := alSet state "pcad_mode" (Val.str "NSUN")
  let c1 ← getK st1 "q1"
  let c2 ← getK st1 "q2"
  let c3 ← getK st1 "q3"
  let c4 ← getK st1 "q4"
  let targs := ext.NSM_attitude [c1, c2, c3, c4] cmd.date
  let st2 := (QCS.zip targs).foldl
    (fun s p => alSet s ("targ_" ++ p.1) (Val.float p.2)) st1
  let (ts', st3, _) ←
    ManeuverTransition.add_manvr_transitions ext date transitions st2 idx cmd
  Except.ok (ts', st3)

end NormalSunTransition

/-- The behaviour discriminator of a transition class (design note §9: the
metaclass registry becomes a static list of rule descriptors). -/
inductive RuleKind where
  | fixedVal (val : String)
  | param (pkey : String)
  | targQuat
  | maneuver
  | normalSun
  | acis
deriving DecidableEq, Repr

/-- A registered transition class: its `transition_name`, the
`command_attributes` equality filter, its `state_keys` and its
`set_transitions` behaviour. -/
structure TransitionClass where
  name : String
  command_attributes : List (String × String)
  state_keys : List String
  kind : RuleKind
deriving DecidableEq, Repr

/-- Command attribute access used by `command_attributes` matching. -/
def cmdField (c : Cmd) : String → String
  | "type" => c.ctype
  | "tlmsid" => c.tlmsid
  | _ => ""

/-- Source `BaseTransition.get_state_changing_commands`: retain commands
matching every required attribute. -/
def get_state_changing_commands (attrs : List (String × String))
    (cmds : List Cmd) : List Cmd :=
  cmds.filter (fun c => attrs.all (fun av => cmdField c av.1 = av.2))

/-- The date-keyed transition map (`collections.defaultdict(dict)`),
keeping date insertion order; each date maps to a transition dict. -/
def TransMap : Type := List (Nat × List (String × TransValue))

instance : Inhabited TransMap := ⟨([] : List (Nat × List (String × TransValue)))⟩

/-- Python `transitions[date][key] = value` on the date-keyed map. -/
def tmSet (m : TransMap) (d : Nat) (k : String) (v : TransValue) : TransMap :=
  match m with
  | [] => [(d, [(k, v)])]
  | (d', items) :: rest =>
      if d' = d then (d', alSet items k v) :: rest
      else (d', items) :: tmSet rest d k v

/-- The ACIS command dispatch of `ACISTransition.set_transitions` (the
`transitions[date].update(...)` branches keyed on `tlmsid`). -/
def acisUpdate (ext : Ext) (m : TransMap) (c : Cmd) : TransMap :=
  let t := c.tlmsid
  let d := c.date
  if t.startsWith "WSPOW" then
    let pwr := ext.decode_power t
    tmSet (tmSet (tmSet (tmSet (tmSet m d "fep_count" (TransValue.scalar (Val.int pwr.1)))
      d "ccd_count" (TransValue.scalar (Val.int pwr.2.1)))
      d "vid_board" (TransValue.scalar (Val.int pwr.2.2.1)))
      d "clocking" (TransValue.scalar (Val.int pwr.2.2.2)))
      d "power_cmd" (TransValue.scalar (Val.str t))
  else if t = "XCZ0000005" ∨ t = "XTZ0000005" then
    tmSet (tmSet m d "clocking" (TransValue.scalar (Val.int 1)))
      d "power_cmd" (TransValue.scalar (Val.str t))
  else if t = "WSVIDALLDN" then
    tmSet (tmSet m d "vid_board" (TransValue.scalar (Val.int 0)))
      d "power_cmd" (TransValue.scalar (Val.str t))
  else if t = "AA00000000" then
    tmSet (tmSet m d "clocking" (TransValue.scalar (Val.int 0)))
      d "power_cmd" (TransValue.scalar (Val.str t))
  else if t = "WSFEPALLUP" then
    tmSet (tmSet m d "fep_count" (TransValue.scalar (Val.int 6)))
      d "power_cmd" (TransValue.scalar (Val.str t))
  else if t.startsWith "WC" then
    tmSet m d "si_mode" (TransValue.scalar (Val.str ("CC_" ++ (t.drop 2).take 5)))
  else if t.startsWith "WT" then
    tmSet m d "si_mode" (TransValue.scalar (Val.str ("TE_" ++ (t.drop 2).take 5)))
  else m

/-- Source `set_transitions` for one transition class over a command batch
(parameter lookups may raise `KeyError`). -/
def set_transitions (ext : Ext) (cls : TransitionClass) (m : TransMap)
    (cmds : List Cmd) : Except String TransMap :=
  let scc := get_state_changing_commands cls.command_attributes cmds
  match cls.kind with
  | RuleKind.fixedVal val =>
      Except.ok (scc.foldl (fun m c =>
        tmSet m c.date cls.name (TransValue.scalar (Val.str val))) m)
  | RuleKind.param pkey =>
      scc.foldlM (fun m c =>
        match alGet c.params pkey with
        | Option.none => Except.error ("KeyError: " ++ pkey)
        | Option.some v =>
            Except.ok (tmSet m c.date cls.name (TransValue.scalar v))) m
  | RuleKind.targQuat =>
      Except.ok (scc.foldl (fun m c =>
        tmSet (tmSet (tmSet (tmSet m c.date "targ_q1" (TransValue.scalar c.q1))
          c.date "targ_q2" (TransValue.scalar c.q2))
          c.date "targ_q3" (TransValue.scalar c.q3))
          c.date "targ_q4" (TransValue.scalar c.q4)) m)
  | RuleKind.maneuver =>
      Except.ok (scc.foldl (fun m c =>
        tmSet m c.date "maneuver" (TransValue.func (FuncAction.maneuver c))) m)
  | RuleKind.normalSun =>
      Except.ok (scc.foldl (fun m c =>
        tmSet m c.date "maneuver" (TransValue.func (FuncAction.normalSun c))) m)
  | RuleKind.acis =>
      Except.ok (scc.foldl (fun m c => acisUpdate ext m c) m)

/-- The registry of transition classes, in source definition order (a
Python `set` whose iteration order is unspecified; a fixed order is chosen
here and only within-date key collisions could observe it). -/
def TRANSITION_CLASSES : List TransitionClass :=
  [⟨"pcad_mode", [("type", "COMMAND_SW"), ("tlmsid", "AONMMODE")],
     MANVR_STATE_KEYS, RuleKind.fixedVal "NMAN"⟩,
   ⟨"pcad_mode", [("type", "COMMAND_SW"), ("tlmsid", "AONPMODE")],
     MANVR_STATE_KEYS, RuleKind.fixedVal "NPNT"⟩,
   ⟨"hetg", [("type", "COMMAND_SW"), ("tlmsid", "4OHETGIN")],
     ["hetg"], RuleKind.fixedVal "INSR"⟩,
   ⟨"hetg", [("type", "COMMAND_SW"), ("tlmsid", "4OHETGRE")],
     ["hetg"], RuleKind.fixedVal "RETR"⟩,
   ⟨"letg", [("type", "COMMAND_SW"), ("tlmsid", "4OLETGIN")],
     ["letg"], RuleKind.fixedVal "INSR"⟩,
   ⟨"letg", [("type", "COMMAND_SW"), ("tlmsid", "4OLETGRE")],
     ["letg"], RuleKind.fixedVal "RETR"⟩,
   ⟨"dither", [("type", "COMMAND_SW"), ("tlmsid", "AOENDITH")],
     ["dither"], RuleKind.fixedVal "ENAB"⟩,
   ⟨"dither", [("type", "COMMAND_SW"), ("tlmsid", "AODSDITH")],
     ["dither"], RuleKind.fixedVal "DISA"⟩,
   ⟨"obsid", [("type", "MP_OBSID")], ["obsid"], RuleKind.param "id"⟩,
   ⟨"simpos", [("type", "SIMTRANS")], ["simpos"], RuleKind.param "pos"⟩,
   ⟨"simfa_pos", [("type", "SIMFOCUS")], ["simfa_pos"], RuleKind.param "pos"⟩,
   ⟨"auto_npnt", [("type", "COMMAND_SW"), ("tlmsid", "AONM2NPE")],
     MANVR_STATE_KEYS, RuleKind.fixedVal "ENAB"⟩,
   ⟨"auto_npnt", [("type", "COMMAND_SW"), ("tlmsid", "AONM2NPD")],
     MANVR_STATE_KEYS, RuleKind.fixedVal "DISA"⟩,
   ⟨"targ_quat", [("type", "MP_TARGQUAT")], MANVR_STATE_KEYS,
     RuleKind.targQuat⟩,
   ⟨"maneuver", [("type", "COMMAND_SW"), ("tlmsid", "AOMANUVR")],
     MANVR_STATE_KEYS, RuleKind.maneuver⟩,
   ⟨"normal_sun", [("type", "COMMAND_SW"), ("tlmsid", "AONSMSAF")],
     MANVR_STATE_KEYS, RuleKind.normalSun⟩,
   ⟨"acis", [("type", "ACISPKT")],
     ["clocking", "power_cmd", "vid_board", "fep_count", "si_mode", "ccd_count"],
     RuleKind.acis⟩]

/-- Helper for `unique` carrying the `seen` set. -/
def uniqueAux : List String → List String → List String
  | _, [] => []
  | seen, x :: xs =>
      if x ∈ seen then uniqueAux seen xs else x :: uniqueAux (x :: seen) xs

/-- Source `unique(seq)`: unique elements in first-seen order. -/
def unique (seq : List String) : List String :=
  uniqueAux [] seq

/-- Source `STATE_KEYS`: the ordered list of all registered state keys, as
accumulated by the metaclass in class definition order. -/
def STATE_KEYS : List String :=
  unique (TRANSITION_CLASSES.foldl (fun acc cls => acc ++ cls.state_keys) [])

/-- Source `get_transition_classes(state_keys)`: every class registered
under one of the given state keys. -/
def get_transition_classes (state_keys : List String) : List TransitionClass :=
  TRANSITION_CLASSES.filter (fun cls => cls.state_keys.any (fun k => k ∈ state_keys))

/-- Stable insertion of one dated map entry (used to model
`sorted(transitions)`; dates in the map are unique). -/
def insertPair (x : Nat × List (String × TransValue)) :
    TransMap → TransMap
  | [] => [x]
  | y :: ys => if y.1 ≤ x.1 then y :: insertPair x ys else x :: y :: ys

/-- Sort the date-keyed map by date. -/
def sortPairsByDate (m : TransMap) : TransMap :=
  m.foldl (fun acc x => insertPair x acc) []

/-- Source `get_transitions_list(cmds, state_keys)`: run `set_transitions`
of every relevant class over the commands, then flatten the date-keyed map
into a date-sorted transition list. -/
def get_transitions_list (ext : Ext) (cmds : List Cmd)
    (state_keys : List String) : Except String (List Transition) := do
  let m ← (get_transition_classes state_keys).foldlM
    (fun m cls => set_transitions ext cls m cmds) (Inhabited.default : TransMap)
  Except.ok ((sortPairsByDate m).map (fun p => ⟨p.1, p.2⟩))

/-- The state-key closure computed at the top of `get_states_for_cmds`:
union of the `state_keys` of every class touching a requested key,
deduplicated in first-seen order. -/
def closureKeys (orig_state_keys : List String) : List String :=
  unique (orig_state_keys.foldl (fun acc k =>
    TRANSITION_CLASSES.foldl (fun a cls =>
      if k ∈ cls.state_keys then a ++ cls.state_keys else a) acc) [])

/-- The `np.arange`-aligned pitch sample times of `add_pitch_transitions`:
every 10000 s from `floor(start / 10000) * 10000` up to (excluding) `stop`. -/
def pitchSampleTimes (start stop : Nat) : List Nat :=
  let sample_time := 10000
  let tstart := start / sample_time * sample_time
  (List.range ((stop - tstart + sample_time - 1) / sample_time)).map
    (fun i => tstart + sample_time * i)

/-- Stable insertion by date (Python `list.sort` is stable; equal dates
keep their relative order). -/
def insertTrans (x : Transition) : List Transition → List Transition
  | [] => [x]
  | y :: ys => if y.date ≤ x.date then y :: insertTrans x ys else x :: y :: ys

/-- Stable sort of a transitions list by date. -/
def sortTransitions (l : List Transition) : List Transition :=
  l.foldl (fun acc x => insertTrans x acc) []

/-- Source `add_pitch_transitions(start, stop, transitions)`: extend with
the periodic `update_pitch` function transitions and re-sort by date. -/
def add_pitch_transitions (start stop : Nat) (transitions : List Transition) :
    List Transition :=
  let pitch_transitions := (pitchSampleTimes start stop).map
    (fun t => (⟨t, [("update_pitch", TransValue.func FuncAction.updatePitch)]⟩ :
      Transition))
  sortTransitions (transitions ++ pitch_transitions)

/-- Execute one function action (`func(date, transitions, state, idx,
**value)`). -/
def execFunc (ext : Ext) (fa : FuncAction) (date : Nat)
    (ts : List Transition) (st : StateD) (idx : Nat) :
    Except String (List Transition × StateD) :=
  match fa with
  | FuncAction.updatePitch => do
      let st' ← update_pitch_state ext date st
      Except.ok (ts, st')
  | FuncAction.maneuver cmd =>
      ManeuverTransition.add_transitions ext date ts st idx cmd
  | FuncAction.normalSun cmd =>
      NormalSunTransition.add_transitions ext date ts st idx cmd

/-- Apply the non-`date` items of one transition dict in order: scalar
values assign a state key, dict values invoke their function action. -/
def applyItems (ext : Ext) (date : Nat) (idx : Nat) :
    List (String × TransValue) → List Transition → StateD →
      Except String (List Transition × StateD)
  | [], ts, st => Except.ok (ts, st)
  | (k, v) :: rest, ts, st =>
      match v with
      | TransValue.scalar val => applyItems ext date idx rest ts (alSet st k val)
      | TransValue.func fa => do
          let (ts', st') ← execFunc ext fa date ts st idx
          applyItems ext date idx rest ts' st'

/-- The `for idx, transition in enumerate(transitions)` interpreter loop
of `get_states_for_cmds`, over a list that function actions may extend
behind the cursor.  `finished` holds the frozen output rows, `curr` the
live state (the last row), `dstarts`/`lastD` the emitted datestarts.
`fuel` bounds the number of iterations (the Python loop terminates because
inserted transitions are scalar-only); the theorems quantify over any
sufficient fuel. -/
def run_transitions (ext : Ext) :
    Nat → List Transition → Nat → List StateD → StateD → List Nat → Nat →
      Except String (List Transition × List StateD × List Nat)
  | fuel, ts, idx, finished, curr, dstarts, lastD =>
      match ts[idx]? with
      | Option.none => Except.ok (ts, finished ++ [curr], dstarts)
      | Option.some t =>
          match fuel with
          | 0 => Except.error "out of fuel"
          | fuel' + 1 =>
              if t.date ≠ lastD then do
                let (ts', curr') ← applyItems ext t.date idx t.items ts curr
                run_transitions ext fuel' ts' (idx + 1) (finished ++ [curr])
                  curr' (dstarts ++ [t.date]) t.date
              else do
                let (ts', curr') ← applyItems ext t.date idx t.items ts curr
                run_transitions ext fuel' ts' (idx + 1) finished curr' dstarts
                  lastD

/-- One output table row: `datestart`/`datestop` from the pair `p` and one
column per requested state key. -/
def mkTableRow (keys : List String) (p : Nat × Nat) (st : StateD) : StateRow :=
  { datestart := p.1, datestop := p.2,
    vals := keys.map (fun k => (k, alGetD st k Val.none)) }

/-- Assemble the output table: `datestart` from the emitted dates,
`datestop` shifted by one with the future sentinel last, and one column per
requested state key (`Table(rows=states, names=state_keys)`). -/
def buildTable (keys : List String) (dstarts : List Nat) (rows : List StateD) :
    List StateRow :=
  let stops := dstarts.drop 1 ++ [FUTURE_SENTINEL]
  List.zipWith (mkTableRow keys) (dstarts.zip stops) rows

/-- The body of `get_states_for_cmds` after the state-key closure is
resolved: assemble and pitch-extend the transition list, fold it through the
interpreter loop and build the states table (also returning the final
transitions list, which the Python function holds internally). -/
def get_states_with_keys (ext : Ext) (fuel : Nat) (cmds : List Cmd)
    (keys : List String) :
    Except String (List Transition × List StateRow) := do
  let tl ← get_transitions_list ext cmds keys
  match cmds with
  | [] => Except.error "IndexError"
  | c0 :: crest =>
      let ts := add_pitch_transitions c0.date
        ((c0 :: crest).getLast (List.cons_ne_nil c0 crest)).date tl
      match ts with
      | [] => Except.error "IndexError"
      | t0 :: trest => do
          let init : StateD := keys.map (fun k => (k, Val.none))
          let (tsF, rows, ds) ←
            run_transitions ext fuel (t0 :: trest) 0 [] init [t0.date] t0.date
          Except.ok (tsF, buildTable keys ds rows)

/-- Source `get_states_for_cmds(cmds, state_keys)` (with the final
transitions list): all state keys when none are requested, else the
requested keys' closure. -/
def get_states_for_cmds_full (ext : Ext) (fuel : Nat) (cmds : List Cmd)
    (state_keys : Option (List String)) :
    Except String (List Transition × List StateRow) :=
  get_states_with_keys ext fuel cmds
    (match state_keys with
     | Option.none => STATE_KEYS
     | Option.some ks => closureKeys ks)

/-- The states table returned by `get_states_for_cmds`. -/
def get_states_for_cmds (ext : Ext) (fuel : Nat) (cmds : List Cmd)
    (state_keys : Option (List String)) : Except String (List StateRow) :=
  Except.map Prod.snd (get_states_for_cmds_full ext fuel cmds state_keys)

/-- A concrete external-library record for witnesses: a two-sample maneuver
profile and fixed sun pitch. -/
def exExt : Ext :=
  { attitudes := fun _ _ t =>
      [⟨t + 100, Flo.ofInt 1, Flo.ofInt 0, Flo.ofInt 0, Flo.ofInt 0, Flo.ofInt 90⟩,
       ⟨t + 200, Flo.ofInt 0, Flo.ofInt 1, Flo.ofInt 0, Flo.ofInt 0, Flo.ofInt 100⟩],
    NSM_attitude := fun _ _ => [Flo.ofInt 1, Flo.ofInt 0, Flo.ofInt 0, Flo.ofInt 0],
    sun_pitch := fun _ _ => Flo.ofInt 42,
    decode_power := fun _ => (1, 2, 3, 4) }

/-- An `AONMMODE` (normal maneuver mode) command at the given date. -/
def cmdNMM (d : Nat) : Cmd :=
  { date := d, ctype := "COMMAND_SW", tlmsid := "AONMMODE", params := [] }

/-- Concrete two-command batch spanning two pitch-sample epochs; neither
command produces a `letg` transition. -/
def exCmds : List Cmd := [cmdNMM 5000, cmdNMM 15000]

/-- C2: on a batch with no `letg`-producing command, requesting `{letg}`
does not raise the spec's `NoTransitionsError` (no such error exists in the
module); state processing reaches the pitch-sample function transitions and
`update_pitch_state` raises `KeyError: 'pcad_mode'` because `pcad_mode` is
outside the processed key closure. -/
theorem C2_no_transitions_keyerror :
    get_states_for_cmds exExt 100 exCmds (Option.some ["letg"]) =
      Except.error "KeyError: pcad_mode" := by
  rfl

/-- C5 counterexample: requesting `{pitch}` over `exCmds` yields four rows
(datestarts 0, 5000, 10000, 15000), and consecutive rows with identical
values exist — the rows at 10000 (a pitch-sample action outside NPNT) and at
15000 (a repeated `pcad_mode='NMAN'`) each changed nothing. -/
theorem C5_unchanged_row_counterexample :
    Except.map (fun rows => rows.map StateRow.datestart)
      (get_states_for_cmds exExt 100 exCmds (Option.some ["pitch"])) =
      Except.ok [0, 5000, 10000, 15000] ∧
    Except.map (fun rows => (rows.zip rows.tail).any
        (fun pc => decide (pc.1.vals = pc.2.vals)))
      (get_states_for_cmds exExt 100 exCmds (Option.some ["pitch"])) =
      Except.ok true := by
  constructor
  · rfl
  · rfl

/-- Destructor for a successful `Except` bind. -/
theorem bind_ok {α β : Type} {x : Except String α} {f : α → Except String β}
    {b : β} (h : Bind.bind x f = Except.ok b) :
    ∃ a, x = Except.ok a ∧ f a = Except.ok b := by
  have h' : Except.bind x f = Except.ok b := h
  cases x with
  | error e => simp [Except.bind] at h'
  | ok a =>
      refine ⟨a, rfl, ?_⟩
      simpa [Except.bind] using h'

/-- A successful `getK` is a successful association-list lookup. -/
theorem getK_ok {st : StateD} {k : String} {v : Val}
    (h : getK st k = Except.ok v) : alGet st k = Option.some v := by
  unfold getK at h
  cases halGet : alGet st k with
  | none => rw [halGet] at h; exact Except.noConfusion h
  | some v' =>
      rw [halGet] at h
      injection h with h1
      rw [h1]

/-- The scan `insertLoop` keeps every element of its input. -/
theorem mem_insertLoop (t x : Transition) :
    ∀ xs : List Transition, x ∈ xs → x ∈ insertLoop t xs := by
  intro xs
  induction xs with
  | nil => intro h; cases h
  | cons y ys ih =>
      intro h
      unfold insertLoop
      by_cases hd : t.date < y.date
      · rw [if_pos hd]; exact List.mem_cons_of_mem t h
      · rw [if_neg hd]
        rcases List.mem_cons.mp h with h1 | h1
        · exact h1 ▸ List.mem_cons_self y _
        · exact List.mem_cons_of_mem y (ih h1)

/-- The scan `insertLoop` contains the inserted element. -/
theorem self_mem_insertLoop (t : Transition) :
    ∀ xs : List Transition, t ∈ insertLoop t xs := by
  intro xs
  induction xs with
  | nil => exact List.mem_singleton.mpr rfl
  | cons y ys ih =>
      unfold insertLoop
      by_cases hd : t.date < y.date
      · rw [if_pos hd]; exact List.mem_cons_self t _
      · rw [if_neg hd]; exact List.mem_cons_of_mem y ih

/-- A successful `add_transition` keeps every existing transition and
contains the new one. -/
theorem add_transition_mem {ts : List Transition} {idx : Nat}
    {tr : Transition} {ts' : List Transition}
    (h : add_transition ts idx tr = Except.ok ts') :
    (∀ x ∈ ts, x ∈ ts') ∧ tr ∈ ts' := by
  cases hts : ts[idx]? with
  | none => unfold add_transition at h; rw [hts] at h; exact Except.noConfusion h
  | some cur =>
      have hstep : add_transition ts idx tr =
          if tr.date < cur.date then
            Except.error "cannot insert transition prior to current command"
          else
            Except.ok (ts.take (idx + 1) ++ insertLoop tr (ts.drop (idx + 1))) := by
        unfold add_transition
        rw [hts]
      rw [hstep] at h
      by_cases hd : tr.date < cur.date
      · rw [if_pos hd] at h; exact Except.noConfusion h
      · rw [if_neg hd] at h
        injection h with h1
        subst h1
        constructor
        · intro x hx
          rw [← List.take_append_drop (idx + 1) ts] at hx
          rcases List.mem_append.mp hx with h2 | h2
          · exact List.mem_append_left _ h2
          · exact List.mem_append_right _ (mem_insertLoop tr x _ h2)
        · exact List.mem_append_right _ (self_mem_insertLoop tr _)

/-- The maneuver-sample insertion loop keeps every existing transition. -/
theorem insertManvrSamples_mem {idx : Nat} :
    ∀ (samples : List (AttSample × Flo)) (ts : List Transition) (d : Nat)
      (ts' : List Transition) (d' : Nat),
      insertManvrSamples idx samples ts d = Except.ok (ts', d') →
      ∀ x ∈ ts, x ∈ ts' := by
  intro samples
  induction samples with
  | nil =>
      intro ts d ts' d' h x hx
      unfold insertManvrSamples at h
      injection h with h1
      rw [Prod.mk.injEq] at h1
      exact h1.1 ▸ hx
  | cons ap rest ih =>
      intro ts d ts' d' h x hx
      unfold insertManvrSamples at h
      obtain ⟨ts1, hadd, h2⟩ := bind_ok h
      exact ih ts1 ap.1.time ts' d' h2 x ((add_transition_mem hadd).1 x hx)

/-- The maneuver expansion `add_manvr_transitions` keeps every existing transition. -/
theorem add_manvr_transitions_mem {ext : Ext} {date : Nat}
    {ts : List Transition} {st : StateD} {idx : Nat} {cmd : Cmd}
    {ts' : List Transition} {st' : StateD} {d' : Nat}
    (h : ManeuverTransition.add_manvr_transitions ext date ts st idx cmd =
      Except.ok (ts', st', d')) :
    ∀ x ∈ ts, x ∈ ts' := by
  unfold ManeuverTransition.add_manvr_transitions at h
  obtain ⟨t1, _, h⟩ := bind_ok h
  obtain ⟨t2, _, h⟩ := bind_ok h
  obtain ⟨t3, _, h⟩ := bind_ok h
  obtain ⟨t4, _, h⟩ := bind_ok h
  obtain ⟨q1v, _, h⟩ := bind_ok h
  obtain ⟨c1, _, h⟩ := bind_ok h
  obtain ⟨c2, _, h⟩ := bind_ok h
  obtain ⟨c3, _, h⟩ := bind_ok h
  obtain ⟨c4, _, h⟩ := bind_ok h
  cases hatts : ext.attitudes [c1, c2, c3, c4] [t1, t2, t3, t4] cmd.date with
  | nil => rw [hatts] at h; exact Except.noConfusion h
  | cons a0 rest =>
      rw [hatts] at h
      obtain ⟨p, hins, h⟩ := bind_ok h
      injection h with h1
      rw [Prod.mk.injEq, Prod.mk.injEq] at h1
      rw [← h1.1]
      exact insertManvrSamples_mem _ ts date p.1 p.2 hins

/-- The action `ManeuverTransition.add_transitions` keeps every existing transition. -/
theorem maneuver_add_transitions_mem {ext : Ext} {date : Nat}
    {ts : List Transition} {st : StateD} {idx : Nat} {cmd : Cmd}
    {ts' : List Transition} {st' : StateD}
    (h : ManeuverTransition.add_transitions ext date ts st idx cmd =
      Except.ok (ts', st')) :
    ∀ x ∈ ts, x ∈ ts' := by
  unfold ManeuverTransition.add_transitions at h
  obtain ⟨p3, hm, h⟩ := bind_ok h
  obtain ⟨an, _, h⟩ := bind_ok h
  have hm' : ManeuverTransition.add_manvr_transitions ext date ts st idx cmd =
      Except.ok (p3.1, p3.2.1, p3.2.2) := hm
  have hmem := add_manvr_transitions_mem hm'
  by_cases he : an = Val.str "ENAB"
  · rw [if_pos he] at h
    obtain ⟨ts2, hadd, h⟩ := bind_ok h
    injection h with h1
    rw [Prod.mk.injEq] at h1
    rw [← h1.1]
    exact fun x hx => (add_transition_mem hadd).1 x (hmem x hx)
  · rw [if_neg he] at h
    injection h with h1
    rw [Prod.mk.injEq] at h1
    rw [← h1.1]
    exact hmem

/-- The action `NormalSunTransition.add_transitions` keeps every existing transition. -/
theorem normalSun_add_transitions_mem {ext : Ext} {date : Nat}
    {ts : List Transition} {st : StateD} {idx : Nat} {cmd : Cmd}
    {ts' : List Transition} {st' : StateD}
    (h : NormalSunTransition.add_transitions ext date ts st idx cmd =
      Except.ok (ts', st')) :
    ∀ x ∈ ts, x ∈ ts' := by
  unfold NormalSunTransition.add_transitions at h
  obtain ⟨c1, _, h⟩ := bind_ok h
  obtain ⟨c2, _, h⟩ := bind_ok h
  obtain ⟨c3, _, h⟩ := bind_ok h
  obtain ⟨c4, _, h⟩ := bind_ok h
  obtain ⟨p3, hm, h⟩ := bind_ok h
  injection h with h1
  rw [Prod.mk.injEq] at h1
  rw [← h1.1]
  have hm' : ManeuverTransition.add_manvr_transitions ext date ts _ idx cmd =
      Except.ok (p3.1, p3.2.1, p3.2.2) := hm
  exact add_manvr_transitions_mem hm'

/-- Every function action keeps every existing transition. -/
theorem execFunc_mem {ext : Ext} {fa : FuncAction} {date : Nat}
    {ts : List Transition} {st : StateD} {idx : Nat}
    {ts' : List Transition} {st' : StateD}
    (h : execFunc ext fa date ts st idx = Except.ok (ts', st')) :
    ∀ x ∈ ts, x ∈ ts' := by
  cases fa with
  | updatePitch =>
      unfold execFunc at h
      obtain ⟨st1, _, h⟩ := bind_ok h
      injection h with h1
      rw [Prod.mk.injEq] at h1
      rw [← h1.1]
      exact fun x hx => hx
  | maneuver cmd => exact maneuver_add_transitions_mem h
  | normalSun cmd => exact normalSun_add_transitions_mem h

/-- Applying a transition's items keeps every existing transition. -/
theorem applyItems_mem {ext : Ext} {date : Nat} {idx : Nat} :
    ∀ (items : List (String × TransValue)) (ts : List Transition)
      (st : StateD) (ts' : List Transition) (st' : StateD),
      applyItems ext date idx items ts st = Except.ok (ts', st') →
      ∀ x ∈ ts, x ∈ ts' := by
  intro items
  induction items with
  | nil =>
      intro ts st ts' st' h x hx
      unfold applyItems at h
      injection h with h1
      rw [Prod.mk.injEq] at h1
      exact h1.1 ▸ hx
  | cons kv rest ih =>
      intro ts st ts' st' h x hx
      unfold applyItems at h
      cases hv : kv.2 with
      | scalar v =>
          rw [show kv = (kv.1, kv.2) from rfl, hv] at h
          exact ih ts _ ts' st' h x hx
      | func fa =>
          rw [show kv = (kv.1, kv.2) from rfl, hv] at h
          obtain ⟨p, hexec, h⟩ := bind_ok h
          exact ih p.1 p.2 ts' st' h x
            (execFunc_mem (show _ = Except.ok (p.1, p.2) from hexec) x hx)

/-- The interpreter loop: every transition of the working list survives to
the final list, and every emitted datestart is the date of some transition
of the final list. -/
theorem run_transitions_dstarts {ext : Ext} :
    ∀ (fuel : Nat) (ts : List Transition) (idx : Nat) (finished : List StateD)
      (curr : StateD) (dstarts : List Nat) (lastD : Nat)
      (tsF : List Transition) (rows : List StateD) (ds : List Nat),
      run_transitions ext fuel ts idx finished curr dstarts lastD =
        Except.ok (tsF, rows, ds) →
      (∀ d ∈ dstarts, ∃ t ∈ ts, t.date = d) →
      (∀ x ∈ ts, x ∈ tsF) ∧ (∀ d ∈ ds, ∃ t ∈ tsF, t.date = d) := by
  intro fuel
  induction fuel with
  | zero =>
      intro ts idx finished curr dstarts lastD tsF rows ds h hinv
      unfold run_transitions at h
      cases hts : ts[idx]? with
      | none =>
          rw [hts] at h
          injection h with h1
          rw [Prod.mk.injEq, Prod.mk.injEq] at h1
          rw [← h1.1, ← h1.2.2]
          exact ⟨fun x hx => hx, hinv⟩
      | some t => rw [hts] at h; exact Except.noConfusion h
  | succ fuel' ih =>
      intro ts idx finished curr dstarts lastD tsF rows ds h hinv
      unfold run_transitions at h
      cases hts : ts[idx]? with
      | none =>
          rw [hts] at h
          injection h with h1
          rw [Prod.mk.injEq, Prod.mk.injEq] at h1
          rw [← h1.1, ← h1.2.2]
          exact ⟨fun x hx => hx, hinv⟩
      | some t =>
          rw [hts] at h
          have h' : (if t.date ≠ lastD then
              Bind.bind (applyItems ext t.date idx t.items ts curr)
                (fun p => run_transitions ext fuel' p.1 (idx + 1)
                  (finished ++ [curr]) p.2 (dstarts ++ [t.date]) t.date)
            else
              Bind.bind (applyItems ext t.date idx t.items ts curr)
                (fun p => run_transitions ext fuel' p.1 (idx + 1)
                  finished p.2 dstarts lastD)) = Except.ok (tsF, rows, ds) := h
          clear h
          have htmem : t ∈ ts := List.getElem?_mem hts
          by_cases hne : t.date ≠ lastD
          · rw [if_pos hne] at h'
            obtain ⟨p, happ, h⟩ := bind_ok h'
            have happm := applyItems_mem t.items ts curr p.1 p.2 happ
            have hinv' : ∀ d ∈ dstarts ++ [t.date], ∃ tt ∈ p.1, tt.date = d := by
              intro d hd
              rcases List.mem_append.mp hd with hd1 | hd1
              · obtain ⟨tt, htt, htd⟩ := hinv d hd1
                exact ⟨tt, happm tt htt, htd⟩
              · exact ⟨t, happm t htmem, (List.mem_singleton.mp hd1).symm⟩
            obtain ⟨h1, h2⟩ := ih p.1 (idx + 1) (finished ++ [curr]) p.2
              (dstarts ++ [t.date]) t.date tsF rows ds h hinv'
            exact ⟨fun x hx => h1 x (happm x hx), h2⟩
          · rw [if_neg hne] at h'
            obtain ⟨p, happ, h⟩ := bind_ok h'
            have happm := applyItems_mem t.items ts curr p.1 p.2 happ
            have hinv' : ∀ d ∈ dstarts, ∃ tt ∈ p.1, tt.date = d := by
              intro d hd
              obtain ⟨tt, htt, htd⟩ := hinv d hd
              exact ⟨tt, happm tt htt, htd⟩
            obtain ⟨h1, h2⟩ := ih p.1 (idx + 1) finished p.2 dstarts lastD
              tsF rows ds h hinv'
            exact ⟨fun x hx => h1 x (happm x hx), h2⟩

/-- Every row of the output table draws its `datestart` from the emitted
list and its columns from the requested keys. -/
theorem buildTable_row_shape (keys : List String) :
    ∀ (ps : List (Nat × Nat)) (rows : List StateD) (r : StateRow),
      r ∈ List.zipWith (mkTableRow keys) ps rows →
      r.datestart ∈ ps.map Prod.fst ∧ r.vals.map Prod.fst = keys := by
  intro ps
  induction ps with
  | nil => intro rows r hr; cases hr
  | cons p ps' ih =>
      intro rows r hr
      cases rows with
      | nil => cases hr
      | cons st rows' =>
          rcases List.mem_cons.mp hr with h | h
          · constructor
            · rw [h]; exact List.mem_cons_self _ _
            · rw [h]
              show (keys.map (fun k => (k, alGetD st k Val.none))).map Prod.fst = keys
              rw [List.map_map]
              calc List.map (Prod.fst ∘ fun k => (k, alGetD st k Val.none)) keys
                  = List.map id keys := List.map_congr_left (fun a _ => rfl)
                _ = keys := List.map_id keys
          · obtain ⟨h1, h2⟩ := ih rows' r h
            exact ⟨List.mem_cons_of_mem _ h1, h2⟩

/-- The table rows of a successful `get_states_with_keys` run have
datestarts drawn from the final transitions list and columns equal to the
resolved keys. -/
theorem get_states_with_keys_rows {ext : Ext} {fuel : Nat} {cmds : List Cmd}
    {keys : List String} {tsF : List Transition} {rows : List StateRow}
    (h : get_states_with_keys ext fuel cmds keys = Except.ok (tsF, rows)) :
    ∀ r ∈ rows, (∃ t ∈ tsF, t.date = r.datestart) ∧
      r.vals.map Prod.fst = keys := by
  unfold get_states_with_keys at h
  obtain ⟨tl, _, h⟩ := bind_ok h
  cases cmds with
  | nil => exact Except.noConfusion h
  | cons c0 crest =>
      have h' : (match add_pitch_transitions c0.date
            ((c0 :: crest).getLast (List.cons_ne_nil c0 crest)).date tl with
          | [] => (Except.error "IndexError" :
              Except String (List Transition × List StateRow))
          | t0 :: trest =>
              Bind.bind (run_transitions ext fuel (t0 :: trest) 0 []
                  (keys.map (fun k => (k, Val.none))) [t0.date] t0.date)
                (fun p => Except.ok (p.1, buildTable keys p.2.2 p.2.1))) =
          Except.ok (tsF, rows) := h
      clear h
      cases hts : add_pitch_transitions c0.date
          ((c0 :: crest).getLast (List.cons_ne_nil c0 crest)).date tl with
      | nil => rw [hts] at h'; exact Except.noConfusion h'
      | cons t0 trest =>
          rw [hts] at h'
          obtain ⟨p3, hrun, h⟩ := bind_ok h'
          injection h with h1
          rw [Prod.mk.injEq] at h1
          obtain ⟨hinv1, hinv2⟩ := run_transitions_dstarts fuel (t0 :: trest) 0
            [] (keys.map (fun k => (k, Val.none))) [t0.date] t0.date
            p3.1 p3.2.1 p3.2.2 (by rw [← hrun])
            (by
              intro d hd
              exact ⟨t0, List.mem_cons_self t0 trest,
                (List.mem_singleton.mp hd).symm⟩)
          intro r hr
          rw [← h1.2] at hr
          have hshape := buildTable_row_shape keys
            ((p3.2.2).zip ((p3.2.2).drop 1 ++ [FUTURE_SENTINEL])) p3.2.1 r hr
          refine ⟨?_, hshape.2⟩
          have hdmem : r.datestart ∈ p3.2.2 := by
            have hlen : (p3.2.2).length ≤
                ((p3.2.2).drop 1 ++ [FUTURE_SENTINEL]).length := by
              rw [List.length_append, List.length_drop]
              simp
              omega
            rw [List.map_fst_zip _ _ hlen] at hshape
            exact hshape.1
          obtain ⟨t, htmem, htd⟩ := hinv2 r.datestart hdmem
          exact ⟨t, h1.1 ▸ htmem, htd⟩

/-- C5 (amended): every row of the table returned by `get_states_for_cmds`
has a `datestart` equal to the date of some transition in the final
transitions list — but a row is emitted at every distinct transition date
whether or not the transition changed any state field (a pitch-sample action
outside NPNT still produces a row). -/
theorem C5_datestart_is_transition_date {ext : Ext} {fuel : Nat}
    {cmds : List Cmd} {state_keys : Option (List String)}
    {tsF : List Transition} {rows : List StateRow}
    (h : get_states_for_cmds_full ext fuel cmds state_keys =
      Except.ok (tsF, rows)) :
    ∀ r ∈ rows, ∃ t ∈ tsF, t.date = r.datestart := by
  unfold get_states_for_cmds_full at h
  intro r hr
  exact (get_states_with_keys_rows h r hr).1

/-- Single-command batch whose date sits exactly on a pitch-sample epoch
(so no pitch transitions are added). -/
def exCmds1 : List Cmd := [cmdNMM 10000]

/-- The final transitions list for `exCmds1` requesting `{pitch}`. -/
def exTsF1 : List Transition :=
  [⟨10000, [("pcad_mode", TransValue.scalar (Val.str "NMAN"))]⟩]

/-- The states table for `exCmds1` requesting `{pitch}`. -/
def exRows1 : List StateRow :=
  [⟨10000, FUTURE_SENTINEL,
    [("q1", Val.none), ("q2", Val.none), ("q3", Val.none), ("q4", Val.none),
     ("targ_q1", Val.none), ("targ_q2", Val.none), ("targ_q3", Val.none),
     ("targ_q4", Val.none), ("auto_npnt", Val.none),
     ("pcad_mode", Val.str "NMAN"), ("pitch", Val.none)]⟩]

/-- Witness for the amended C5 on a concrete run. -/
theorem C5_datestart_is_transition_date_witness :
    get_states_for_cmds_full exExt 10 exCmds1 (Option.some ["pitch"]) =
      Except.ok (exTsF1, exRows1) ∧
    ∀ r ∈ exRows1, ∃ t ∈ exTsF1, t.date = r.datestart :=
  ⟨by rfl, C5_datestart_is_transition_date
    (show get_states_for_cmds_full exExt 10 exCmds1 (Option.some ["pitch"]) =
      Except.ok (exTsF1, exRows1) from by rfl)⟩

/-- C6: the state-key closure of any single maneuver-group key (any of
`q1..q4`, `targ_q1..q4`, `pcad_mode`, `auto_npnt`, `pitch`) is exactly
`MANVR_STATE_KEYS`, and the value columns of every row of the resulting
states table are exactly `MANVR_STATE_KEYS` — in particular requesting
`{pitch}` yields the full maneuver key group. -/
theorem C6_manvr_key_closure :
    (∀ k ∈ MANVR_STATE_KEYS, closureKeys [k] = MANVR_STATE_KEYS) ∧
    (∀ (ext : Ext) (fuel : Nat) (cmds : List Cmd) (k : String)
      (tsF : List Transition) (rows : List StateRow), k ∈ MANVR_STATE_KEYS →
      get_states_for_cmds_full ext fuel cmds (Option.some [k]) =
        Except.ok (tsF, rows) →
      ∀ r ∈ rows, r.vals.map Prod.fst = MANVR_STATE_KEYS) := by
  have hclo : ∀ k ∈ MANVR_STATE_KEYS, closureKeys [k] = MANVR_STATE_KEYS := by
    decide
  refine ⟨hclo, ?_⟩
  intro ext fuel cmds k tsF rows hk h
  have h' : get_states_with_keys ext fuel cmds (closureKeys [k]) =
      Except.ok (tsF, rows) := h
  intro r hr
  have h2 := (get_states_with_keys_rows h' r hr).2
  rw [hclo k hk] at h2
  exact h2

/-- Witness for C6: requesting `{pitch}` on a concrete run. -/
theorem C6_manvr_key_closure_witness :
    closureKeys ["pitch"] = MANVR_STATE_KEYS ∧
    (∀ r ∈ exRows1, r.vals.map Prod.fst = MANVR_STATE_KEYS) :=
  ⟨C6_manvr_key_closure.1 "pitch" (by decide),
   C6_manvr_key_closure.2 exExt 10 exCmds1 "pitch" exTsF1 exRows1 (by decide)
     (by rfl)⟩

/-- Looking up the key just set returns the new value. -/
theorem alGet_alSet_self {α : Type} (st : List (String × α)) (k : String)
    (v : α) : alGet (alSet st k v) k = Option.some v := by
  induction st with
  | nil => simp [alSet, alGet]
  | cons kv rest ih =>
      unfold alSet
      by_cases h : kv.1 = k
      · rw [show kv = (kv.1, kv.2) from rfl, if_pos h]
        simp [alGet]
      · rw [show kv = (kv.1, kv.2) from rfl, if_neg h]
        unfold alGet
        rw [if_neg h]
        exact ih

/-- Setting one key does not change lookups of another key. -/
theorem alGet_alSet_ne {α : Type} (st : List (String × α)) (k k' : String)
    (v : α) (hne : k ≠ k') : alGet (alSet st k v) k' = alGet st k' := by
  induction st with
  | nil => simp [alSet, alGet, hne]
  | cons kv rest ih =>
      unfold alSet
      by_cases h : kv.1 = k
      · rw [show kv = (kv.1, kv.2) from rfl, if_pos h]
        unfold alGet
        rw [if_neg hne, if_neg (h ▸ hne)]
      · rw [show kv = (kv.1, kv.2) from rfl, if_neg h]
        unfold alGet
        by_cases h2 : kv.1 = k'
        · rw [if_pos h2, if_pos h2]
        · rw [if_neg h2, if_neg h2]
          exact ih

/-- Characterization of the live state returned by
`add_manvr_transitions`: the target quaternion and `q1` were successfully
read, and the returned state is the input state, seeded on `q1..q4` from the
targets exactly when `q1` was `None`. -/
theorem add_manvr_transitions_state {ext : Ext} {date : Nat}
    {ts : List Transition} {st : StateD} {idx : Nat} {cmd : Cmd}
    {ts' : List Transition} {st' : StateD} {dEnd : Nat}
    (hm : ManeuverTransition.add_manvr_transitions ext date ts st idx cmd =
      Except.ok (ts', st', dEnd)) :
    ∃ t1 t2 t3 t4 q1v,
      alGet st "targ_q1" = Option.some t1 ∧
      alGet st "targ_q2" = Option.some t2 ∧
      alGet st "targ_q3" = Option.some t3 ∧
      alGet st "targ_q4" = Option.some t4 ∧
      alGet st "q1" = Option.some q1v ∧
      st' = (if q1v = Val.none then
        alSet (alSet (alSet (alSet st "q1" t1) "q2" t2) "q3" t3) "q4" t4
      else st) := by
  unfold ManeuverTransition.add_manvr_transitions at hm
  obtain ⟨t1, ht1, hm⟩ := bind_ok hm
  obtain ⟨t2, ht2, hm⟩ := bind_ok hm
  obtain ⟨t3, ht3, hm⟩ := bind_ok hm
  obtain ⟨t4, ht4, hm⟩ := bind_ok hm
  obtain ⟨q1v, hq1, hm⟩ := bind_ok hm
  obtain ⟨c1, _, hm⟩ := bind_ok hm
  obtain ⟨c2, _, hm⟩ := bind_ok hm
  obtain ⟨c3, _, hm⟩ := bind_ok hm
  obtain ⟨c4, _, hm⟩ := bind_ok hm
  refine ⟨t1, t2, t3, t4, q1v, getK_ok ht1, getK_ok ht2, getK_ok ht3,
    getK_ok ht4, getK_ok hq1, ?_⟩
  cases hatts : ext.attitudes [c1, c2, c3, c4] [t1, t2, t3, t4] cmd.date with
  | nil => rw [hatts] at hm; exact Except.noConfusion hm
  | cons a0 rest =>
      rw [hatts] at hm
      obtain ⟨p, _, hm⟩ := bind_ok hm
      injection hm with h1
      rw [Prod.mk.injEq, Prod.mk.injEq] at h1
      exact h1.2.1.symm

/-- The maneuver expansion `add_manvr_transitions` never changes `auto_npnt` in the live state
(seeding only touches `q1..q4`). -/
theorem add_manvr_transitions_auto_npnt {ext : Ext} {date : Nat}
    {ts : List Transition} {st : StateD} {idx : Nat} {cmd : Cmd}
    {ts' : List Transition} {st' : StateD} {dEnd : Nat}
    (hm : ManeuverTransition.add_manvr_transitions ext date ts st idx cmd =
      Except.ok (ts', st', dEnd)) :
    alGet st' "auto_npnt" = alGet st "auto_npnt" := by
  obtain ⟨t1, t2, t3, t4, q1v, _, _, _, _, _, hst⟩ :=
    add_manvr_transitions_state hm
  by_cases hq : q1v = Val.none
  · rw [hst, if_pos hq]
    rw [alGet_alSet_ne _ _ _ _ (by decide), alGet_alSet_ne _ _ _ _ (by decide),
      alGet_alSet_ne _ _ _ _ (by decide), alGet_alSet_ne _ _ _ _ (by decide)]
  · rw [hst, if_neg hq]

/-- C7: for every successful execution of the maneuver function action,
the `{pcad_mode: 'NPNT'}` transition at the end-of-maneuver date is in the
output transitions list if and only if the live state (unchanged on
`auto_npnt` by the attitude insertion) has `auto_npnt == 'ENAB'`; with any
other value (e.g. `'DISA'`) the transitions list is exactly the
post-attitude-samples list and no such transition is added. -/
theorem C7_auto_npnt_coda {ext : Ext} {date : Nat} {ts : List Transition}
    {st : StateD} {idx : Nat} {cmd : Cmd} {ts' : List Transition}
    {st' : StateD} {dEnd : Nat} {out : List Transition × StateD}
    (hm : ManeuverTransition.add_manvr_transitions ext date ts st idx cmd =
      Except.ok (ts', st', dEnd))
    (hok : ManeuverTransition.add_transitions ext date ts st idx cmd =
      Except.ok out)
    (hfresh : ManeuverTransition.npntTransition dEnd ∉ ts') :
    (ManeuverTransition.npntTransition dEnd ∈ out.1 ↔
      alGet st "auto_npnt" = Option.some (Val.str "ENAB")) ∧
    (alGet st "auto_npnt" ≠ Option.some (Val.str "ENAB") → out = (ts', st')) ∧
    alGet st' "auto_npnt" = alGet st "auto_npnt" := by
  have hpres := add_manvr_transitions_auto_npnt hm
  unfold ManeuverTransition.add_transitions at hok
  obtain ⟨p3, hm0, hok⟩ := bind_ok hok
  have hp3 : p3 = (ts', st', dEnd) := by
    have := hm0.symm.trans hm
    injection this
  subst hp3
  obtain ⟨an, han, hok⟩ := bind_ok hok
  have han' : alGet st' "auto_npnt" = Option.some an := getK_ok han
  by_cases he : an = Val.str "ENAB"
  · rw [if_pos he] at hok
    obtain ⟨ts2, hadd, hok⟩ := bind_ok hok
    injection hok with h1
    subst h1
    have hauto : alGet st "auto_npnt" = Option.some (Val.str "ENAB") := by
      rw [← hpres, han', he]
    refine ⟨?_, ?_, hpres⟩
    · constructor
      · intro _; exact hauto
      · intro _; exact (add_transition_mem hadd).2
    · intro hcontra; exact absurd hauto hcontra
  · rw [if_neg he] at hok
    injection hok with h1
    subst h1
    have hauto : alGet st "auto_npnt" ≠ Option.some (Val.str "ENAB") := by
      rw [← hpres, han']
      intro hcon
      injection hcon with hcon2
      exact he hcon2
    refine ⟨?_, fun _ => rfl, hpres⟩
    constructor
    · intro hmem; exact absurd hmem hfresh
    · intro hcon; exact absurd hcon hauto

/-- An `AOMANUVR` (execute maneuver) command at the given date. -/
def cmdAOM (d : Nat) : Cmd :=
  { date := d, ctype := "COMMAND_SW", tlmsid := "AOMANUVR", params := [] }

/-- Concrete live state with known `q1`, unknown `q2` and
`auto_npnt == 'ENAB'`. -/
def exSt8 : StateD :=
  [("q1", Val.float (Flo.ofInt 1)), ("q2", Val.none),
   ("q3", Val.float (Flo.ofInt 0)), ("q4", Val.float (Flo.ofInt 0)),
   ("targ_q1", Val.float (Flo.ofInt 0)), ("targ_q2", Val.float (Flo.ofInt 2)),
   ("targ_q3", Val.float (Flo.ofInt 0)), ("targ_q4", Val.float (Flo.ofInt 1)),
   ("auto_npnt", Val.str "ENAB"),
   ("pcad_mode", Val.str "NMAN"), ("pitch", Val.none)]

/-- Concrete live state with unknown `q1` and `auto_npnt == 'DISA'`. -/
def exSt8b : StateD :=
  [("q1", Val.none), ("q2", Val.float (Flo.ofInt 9)), ("q3", Val.none),
   ("q4", Val.none),
   ("targ_q1", Val.float (Flo.ofInt 3)), ("targ_q2", Val.float (Flo.ofInt 4)),
   ("targ_q3", Val.float (Flo.ofInt 5)), ("targ_q4", Val.float (Flo.ofInt 6)),
   ("auto_npnt", Val.str "DISA"),
   ("pcad_mode", Val.str "NMAN"), ("pitch", Val.none)]

/-- The maneuver function transition at date 1000. -/
def exManvrT : Transition :=
  ⟨1000, [("maneuver", TransValue.func (FuncAction.maneuver (cmdAOM 1000)))]⟩

/-- Transitions list holding only the maneuver function action. -/
def exTs8 : List Transition := [exManvrT]

/-- The transition inserted for `exExt`'s first attitude sample. -/
def exAtt1 : Transition :=
  ⟨1100, [("q1", TransValue.scalar (Val.float (Flo.ofInt 1))),
          ("q2", TransValue.scalar (Val.float (Flo.ofInt 0))),
          ("q3", TransValue.scalar (Val.float (Flo.ofInt 0))),
          ("q4", TransValue.scalar (Val.float (Flo.ofInt 0))),
          ("pitch", TransValue.scalar (Val.float ⟨190, 2⟩))]⟩

/-- The transition inserted for `exExt`'s second attitude sample. -/
def exAtt2 : Transition :=
  ⟨1200, [("q1", TransValue.scalar (Val.float (Flo.ofInt 0))),
          ("q2", TransValue.scalar (Val.float (Flo.ofInt 1))),
          ("q3", TransValue.scalar (Val.float (Flo.ofInt 0))),
          ("q4", TransValue.scalar (Val.float (Flo.ofInt 0))),
          ("pitch", TransValue.scalar (Val.float (Flo.ofInt 100)))]⟩

/-- The transitions list after inserting both attitude samples. -/
def exTs7 : List Transition := [exManvrT, exAtt1, exAtt2]

/-- The full output of the maneuver action on `exSt8` (`auto_npnt` enabled):
attitude samples plus the NPNT coda at the end-of-maneuver date 1200. -/
def exOut7 : List Transition × StateD :=
  (exTs7 ++ [ManeuverTransition.npntTransition 1200], exSt8)

/-- Witness for C7 at a concrete maneuver with `auto_npnt == 'ENAB'`. -/
theorem C7_auto_npnt_coda_witness :
    ManeuverTransition.add_manvr_transitions exExt 1000 exTs8 exSt8 0
      (cmdAOM 1000) = Except.ok (exTs7, exSt8, 1200) ∧
    ManeuverTransition.add_transitions exExt 1000 exTs8 exSt8 0 (cmdAOM 1000) =
      Except.ok exOut7 ∧
    ManeuverTransition.npntTransition 1200 ∉ exTs7 ∧
    ((ManeuverTransition.npntTransition 1200 ∈ exOut7.1 ↔
        alGet exSt8 "auto_npnt" = Option.some (Val.str "ENAB")) ∧
      (alGet exSt8 "auto_npnt" ≠ Option.some (Val.str "ENAB") →
        exOut7 = (exTs7, exSt8)) ∧
      alGet exSt8 "auto_npnt" = alGet exSt8 "auto_npnt") :=
  ⟨by rfl, by rfl, by decide,
   @C7_auto_npnt_coda exExt 1000 exTs8 exSt8 0 (cmdAOM 1000) exTs7 exSt8 1200
     exOut7 (by rfl) (by rfl) (by decide)⟩

/-- C8 counterexample: on `exSt8`, `q2` is unknown (`None`) while `q1` is
known, and `add_manvr_transitions` succeeds without seeding `q2` from
`targ_q2` — refuting "if any of q1..q4 is unknown, seed all of q1..q4". -/
theorem C8_seed_counterexample :
    Except.map (fun p => alGet p.2.1 "q2")
      (ManeuverTransition.add_manvr_transitions exExt 1000 exTs8 exSt8 0
        (cmdAOM 1000)) = Except.ok (Option.some Val.none) ∧
    alGet exSt8 "q2" = Option.some Val.none ∧
    alGet exSt8 "targ_q2" = Option.some (Val.float (Flo.ofInt 2)) :=
  ⟨by rfl, by rfl, by rfl⟩

/-- C8 (amended): the maneuver action reads `targ_q1..targ_q4` from the
live state and seeds all of `q1..q4` from the corresponding targets exactly
when `q1` is unknown (`None`); when `q1` is known the state is left
untouched even if `q2..q4` are unknown. -/
theorem C8_seed_only_on_q1_unknown {ext : Ext} {date : Nat}
    {ts : List Transition} {st : StateD} {idx : Nat} {cmd : Cmd}
    {ts' : List Transition} {st' : StateD} {dEnd : Nat}
    (hm : ManeuverTransition.add_manvr_transitions ext date ts st idx cmd =
      Except.ok (ts', st', dEnd)) :
    (alGet st "q1" = Option.some Val.none →
      alGet st' "q1" = alGet st "targ_q1" ∧
      alGet st' "q2" = alGet st "targ_q2" ∧
      alGet st' "q3" = alGet st "targ_q3" ∧
      alGet st' "q4" = alGet st "targ_q4") ∧
    (∀ v, alGet st "q1" = Option.some v → v ≠ Val.none → st' = st) := by
  obtain ⟨t1, t2, t3, t4, q1v, h1, h2, h3, h4, hq, hst⟩ :=
    add_manvr_transitions_state hm
  constructor
  · intro hq1
    have hv : q1v = Val.none := by
      rw [hq] at hq1
      injection hq1
    rw [hst, if_pos hv]
    refine ⟨?_, ?_, ?_, ?_⟩
    · rw [alGet_alSet_ne _ _ _ _ (by decide), alGet_alSet_ne _ _ _ _ (by decide),
        alGet_alSet_ne _ _ _ _ (by decide), alGet_alSet_self, h1]
    · rw [alGet_alSet_ne _ _ _ _ (by decide), alGet_alSet_ne _ _ _ _ (by decide),
        alGet_alSet_self, h2]
    · rw [alGet_alSet_ne _ _ _ _ (by decide), alGet_alSet_self, h3]
    · rw [alGet_alSet_self, h4]
  · intro v hv hvne
    have hqv : q1v = v := by
      rw [hq] at hv
      injection hv
    rw [hst, if_neg (hqv ▸ hvne)]

/-- The seeded state: all of `q1..q4` copied from the targets of `exSt8b`. -/
def exSt8bSeeded : StateD :=
  [("q1", Val.float (Flo.ofInt 3)), ("q2", Val.float (Flo.ofInt 4)),
   ("q3", Val.float (Flo.ofInt 5)), ("q4", Val.float (Flo.ofInt 6)),
   ("targ_q1", Val.float (Flo.ofInt 3)), ("targ_q2", Val.float (Flo.ofInt 4)),
   ("targ_q3", Val.float (Flo.ofInt 5)), ("targ_q4", Val.float (Flo.ofInt 6)),
   ("auto_npnt", Val.str "DISA"),
   ("pcad_mode", Val.str "NMAN"), ("pitch", Val.none)]

/-- Witness for the amended C8 at a concrete state with `q1` unknown. -/
theorem C8_seed_only_on_q1_unknown_witness :
    ManeuverTransition.add_manvr_transitions exExt 1000 exTs8 exSt8b 0
      (cmdAOM 1000) = Except.ok (exTs7, exSt8bSeeded, 1200) ∧
    alGet exSt8b "q1" = Option.some Val.none ∧
    (alGet exSt8bSeeded "q1" = alGet exSt8b "targ_q1" ∧
     alGet exSt8bSeeded "q2" = alGet exSt8b "targ_q2" ∧
     alGet exSt8bSeeded "q3" = alGet exSt8b "targ_q3" ∧
     alGet exSt8bSeeded "q4" = alGet exSt8b "targ_q4") :=
  ⟨by rfl, by rfl,
   (C8_seed_only_on_q1_unknown
     (show ManeuverTransition.add_manvr_transitions exExt 1000 exTs8 exSt8b 0
        (cmdAOM 1000) = Except.ok (exTs7, exSt8bSeeded, 1200) from by rfl)).1
     (by rfl)⟩

/-- One row of the merged MSID `changes` stream of the maneuver event
detector (`get_msid_changes` plus the `dt` annotation of `get_events`). -/
structure Change where
  msid : String
  val : String
  val0 : String
  dt : Flo
  time : Flo
  time0 : Flo
  date : Nat
  date0 : Nat
deriving DecidableEq, Repr, Inhabited

/-- Source `ZERO_DT = -1e-6`. -/
def ZERO_DT : Flo := ⟨-1, 1000000⟩

/-- The post-maneuver portion of a change stream:
`changes[changes['dt'] >= ZERO_DT]`. -/
def postManvr (changes : List Change) : List Change :=
  changes.filter (fun c => !(Flo.ltb c.dt ZERO_DT))

/-- The nominal value sets of `Maneuver.get_manvr_attrs` (`nom_vals`);
note the absence of an entry for `aounload`, one of the related MSIDs. -/
def nom_vals : List (String × List String) :=
  [("aopcadmd", ["NPNT", "NMAN"]),
   ("aoacaseq", ["GUID", "KALM", "AQXN"]),
   ("aofattmd", ["MNVR", "STDY"]),
   ("aopsacpr", ["INIT", "INAC", "ACT "])]

/-- The `anomalous` loop of `get_manvr_attrs`: walk the post-maneuver
changes, looking up `nom_vals[change['msid']]` (a `KeyError` when the MSID
has no entry) and stopping at the first off-nominal value. -/
def anomalousLoop : List Change → Except String Bool
  | [] => Except.ok false
  | c :: cs =>
      match alGet nom_vals c.msid with
      | Option.none => Except.error ("KeyError: " ++ c.msid)
      | Option.some vals =>
          if c.val ∈ vals then anomalousLoop cs else Except.ok true

/-- The `anomalous` attribute computed over a maneuver's change sequence. -/
def anomalous_flag (changes : List Change) : Except String Bool :=
  anomalousLoop (postManvr changes)

/-- A post-maneuver momentum-dump change of MSID `aounload`. -/
def exChgUnload : Change :=
  { msid := "aounload", val := "GRND", val0 := "MON ", dt := Flo.ofInt 0,
    time := Flo.ofInt 0, time0 := Flo.ofInt 0, date := 0, date0 := 0 }

/-- A nominal post-maneuver `aopcadmd` change. -/
def exChgNom : Change :=
  { msid := "aopcadmd", val := "NPNT", val0 := "NMAN", dt := Flo.ofInt 0,
    time := Flo.ofInt 0, time0 := Flo.ofInt 0, date := 0, date0 := 0 }

/-- An off-nominal post-maneuver `aopcadmd` change (`NSUN`). -/
def exChgAnom : Change :=
  { msid := "aopcadmd", val := "NSUN", val0 := "NPNT", dt := Flo.ofInt 0,
    time := Flo.ofInt 0, time0 := Flo.ofInt 0, date := 0, date0 := 0 }

/-- C9: the `anomalous` computation raises `KeyError: 'aounload'` on any
post-maneuver change of MSID `aounload` (which `rel_msids` includes in the
sequence), instead of returning a boolean; on the four MSIDs of `nom_vals`
it is the claimed boolean. -/
theorem C9_aounload_keyerror :
    anomalous_flag [exChgUnload] = Except.error "KeyError: aounload" ∧
    anomalous_flag [exChgNom] = Except.ok false ∧
    anomalous_flag [exChgAnom] = Except.ok true :=
  ⟨by rfl, by rfl, by rfl⟩

/-- A dwell dict being built by `Maneuver.get_dwells` (Python dict with the
five keys set incrementally; unset keys are `Option.none`). -/
structure DwellD where
  dt : Option Flo := Option.none
  tstart : Option Flo := Option.none
  datestart : Option Nat := Option.none
  tstop : Option Flo := Option.none
  datestop : Option Nat := Option.none
deriving DecidableEq, Repr, Inhabited

/-- A dwell record with both a start (`dt`, `tstart`, `datestart`) and a
stop (`tstop`, `datestop`). -/
def dwellComplete (d : DwellD) : Bool :=
  d.dt.isSome && d.tstart.isSome && d.datestart.isSome &&
    d.tstop.isSome && d.datestop.isSome

/-- The state machine of `Maneuver.get_dwells`, carrying the Python locals
`state` (`None` or `'dwell'`), `t0`, the dwell dict under construction and
the emitted dwells. -/
def get_dwellsAux : List Change → Option String → Flo → DwellD →
    List DwellD → List DwellD
  | [], _, _, _, dwells => dwells
  | c :: cs, state, t0, dwell, dwells =>
      if state = Option.none ∧ c.msid = "aoacaseq" ∧ c.val = "KALM" then
        get_dwellsAux cs (Option.some "dwell") c.time
          { dwell with
            dt := Option.some c.dt, tstart := Option.some c.time,
            datestart := Option.some c.date } dwells
      else if state = Option.some "dwell" ∧ c.msid = "aoacaseq" ∧
          c.val = "KALM" ∧ Flo.ltb (c.time.sub t0) (Flo.ofInt 400) = true then
        get_dwellsAux cs state c.time
          { dwell with
            dt := Option.some c.dt, tstart := Option.some c.time,
            datestart := Option.some c.date } dwells
      else if state = Option.some "dwell" ∧
          ((c.msid = "aopcadmd" ∧ c.val = "NMAN") ∨
            (c.msid = "aoacaseq" ∧
              Flo.ltb (Flo.ofInt 400) (c.time.sub t0) = true)) then
        get_dwellsAux cs Option.none t0 {}
          (dwells ++ [{ dwell with
            tstop := Option.some c.time0,
            datestop := Option.some c.date0 }])
      else
        get_dwellsAux cs state t0 dwell dwells

/-- Source `Maneuver.get_dwells(changes)`: run the dwell state machine over
the post-maneuver changes; an in-progress dwell at the end of the sequence
is dropped with the final `dwell`/`state` locals. -/
def get_dwells (changes : List Change) : List DwellD :=
  get_dwellsAux (postManvr changes) Option.none (Flo.ofInt 0)
    (Inhabited.default : DwellD) []

/-- Invariant of the dwell state machine: while in a dwell the dict under
construction has its start fields, so every emitted dwell is complete. -/
theorem get_dwellsAux_complete :
    ∀ (cs : List Change) (state : Option String) (t0 : Flo) (dwell : DwellD)
      (dwells : List DwellD),
      (state = Option.some "dwell" →
        dwell.dt.isSome ∧ dwell.tstart.isSome ∧ dwell.datestart.isSome) →
      (∀ d ∈ dwells, dwellComplete d = true) →
      ∀ d ∈ get_dwellsAux cs state t0 dwell dwells, dwellComplete d = true := by
  intro cs
  induction cs with
  | nil =>
      intro state t0 dwell dwells _ hd d hmem
      exact hd d hmem
  | cons c cs' ih =>
      intro state t0 dwell dwells hst hd d hmem
      unfold get_dwellsAux at hmem
      by_cases h1 : state = Option.none ∧ c.msid = "aoacaseq" ∧ c.val = "KALM"
      · rw [if_pos h1] at hmem
        exact ih (Option.some "dwell") c.time
          { dwell with
            dt := Option.some c.dt, tstart := Option.some c.time,
            datestart := Option.some c.date } dwells
          (fun _ => ⟨rfl, rfl, rfl⟩) hd d hmem
      · rw [if_neg h1] at hmem
        by_cases h2 : state = Option.some "dwell" ∧ c.msid = "aoacaseq" ∧
            c.val = "KALM" ∧ Flo.ltb (c.time.sub t0) (Flo.ofInt 400) = true
        · rw [if_pos h2] at hmem
          exact ih state c.time
            { dwell with
              dt := Option.some c.dt, tstart := Option.some c.time,
              datestart := Option.some c.date } dwells
            (fun _ => ⟨rfl, rfl, rfl⟩) hd d hmem
        · rw [if_neg h2] at hmem
          by_cases h3 : state = Option.some "dwell" ∧
              ((c.msid = "aopcadmd" ∧ c.val = "NMAN") ∨
                (c.msid = "aoacaseq" ∧
                  Flo.ltb (Flo.ofInt 400) (c.time.sub t0) = true))
          · rw [if_pos h3] at hmem
            refine ih Option.none t0 _ _ (fun hcon => Option.noConfusion hcon)
              ?_ d hmem
            intro d' hd'
            rcases List.mem_append.mp hd' with hmem1 | hmem1
            · exact hd d' hmem1
            · rw [List.mem_singleton.mp hmem1]
              obtain ⟨hdt, hts, hds⟩ := hst h3.1
              unfold dwellComplete
              simp only
              rw [Bool.and_eq_true, Bool.and_eq_true, Bool.and_eq_true,
                Bool.and_eq_true]
              exact ⟨⟨⟨⟨hdt, hts⟩, hds⟩, rfl⟩, rfl⟩
          · rw [if_neg h3] at hmem
            exact ih state t0 dwell dwells hst hd d hmem

/-- C10: every dwell reported by `get_dwells` has both a start and a stop;
a dwell begun by an `aoacaseq → KALM` change but never terminated before the
sequence ends is silently discarded, never emitted. -/
theorem C10_dwells_have_start_and_stop (changes : List Change) :
    ∀ d ∈ get_dwells changes, dwellComplete d = true := by
  unfold get_dwells
  exact get_dwellsAux_complete (postManvr changes) Option.none (Flo.ofInt 0)
    (Inhabited.default : DwellD) []
    (fun hcon => Option.noConfusion hcon) (fun d hd => absurd hd (List.not_mem_nil d))

/-- Concrete change sequence: a KALM dwell start, an `aopcadmd → NMAN` exit,
then a trailing KALM that begins a dwell which is never terminated. -/
def exChanges : List Change :=
  [{ msid := "aoacaseq", val := "KALM", val0 := "GUID", dt := Flo.ofInt 0,
     time := Flo.ofInt 1000, time0 := Flo.ofInt 990, date := 10, date0 := 9 },
   { msid := "aopcadmd", val := "NMAN", val0 := "NPNT", dt := Flo.ofInt 1,
     time := Flo.ofInt 2000, time0 := Flo.ofInt 1990, date := 20, date0 := 19 },
   { msid := "aoacaseq", val := "KALM", val0 := "GUID", dt := Flo.ofInt 2,
     time := Flo.ofInt 3000, time0 := Flo.ofInt 2990, date := 30, date0 := 29 }]

/-- The single dwell emitted on `exChanges` (the trailing dwell is
discarded). -/
def exDwell : DwellD :=
  { dt := Option.some (Flo.ofInt 0), tstart := Option.some (Flo.ofInt 1000),
    datestart := Option.some 10, tstop := Option.some (Flo.ofInt 1990),
    datestop := Option.some 19 }

/-- Witness for C10: the concrete sequence emits exactly one complete
dwell although two dwells were begun. -/
theorem C10_dwells_have_start_and_stop_witness :
    get_dwells exChanges = [exDwell] ∧ dwellComplete exDwell = true :=
  ⟨by rfl,
   C10_dwells_have_start_and_stop exChanges exDwell
     (by rw [show get_dwells exChanges = [exDwell] from by rfl]
         exact List.mem_singleton.mpr rfl)⟩

end Kadi
